import Mathlib

/-!
Verification of the Submission Evaluation & Access Control Engine of the
FastApiPython learning-platform backend (`TestAPI/app/api/submissions.py`,
`TestAPI/app/api/courses.py`, `TestAPI/app/core/helper.py`,
`TestAPI/app/models.py`).

The Python code is shallowly embedded: JSON values (the course content
tree, task definitions, decoded answers) become the inductive type `Json`;
the relevant Python builtin operations (`json.loads`, `int(...)`,
`sorted`, `set` intersection, dict `.get`, string `strip`/`lower`/`in`,
truthiness) are modelled for the value domain this program manipulates
(JSON without floating-point numbers; number literals are integers).
Fallible Python code — an uncaught exception — is modelled by `Option`
with `none` for the raised exception; exceptions that the source catches
are folded into the value the handler produces, exactly as the source
does.
-/

namespace FastApiPython

/-- JSON values as produced by Python's `json.loads`, restricted to
integer numerals (float literals are outside the model).  Python's `None`
is identified with `Json.null`. -/
inductive Json where
  | null : Json
  | bool : Bool → Json
  | int : Int → Json
  | str : String → Json
  | arr : List Json → Json
  | obj : List (String × Json) → Json
deriving Repr

/-- Python truthiness (`if x:`) for JSON values: `None`, `False`, `0`,
`""`, `[]`, `` empty dict `` are falsy. -/
def pyFalsy : Json → Bool
  | .null => true
  | .bool b => !b
  | .int n => n == 0
  | .str s => s.isEmpty
  | .arr xs => xs.isEmpty
  | .obj kvs => kvs.isEmpty

mutual

/-- Python `==` on JSON values.  `bool` compares numerically with `int`
(Python's `True == 1`); values of different kinds otherwise compare
unequal (no exception); dicts compare by key set and pointwise values. -/
def pyEq : Json → Json → Bool
  | .null, .null => true
  | .int a, .int b => a == b
  | .int a, .bool b => a == (if b then (1 : Int) else 0)
  | .bool a, .int b => (if a then (1 : Int) else 0) == b
  | .bool a, .bool b => a == b
  | .str a, .str b => a == b
  | .arr xs, .arr ys => pyEqList xs ys
  | .obj xs, .obj ys => xs.length == ys.length && pyEqKVs xs ys
  | _, _ => false

/-- Python `==` on lists: same length and pointwise `pyEq`. -/
def pyEqList : List Json → List Json → Bool
  | [], [] => true
  | x :: xs, y :: ys => pyEq x y && pyEqList xs ys
  | _, _ => false

/-- Each key of the first dict is present in the second with a
`pyEq`-equal value. -/
def pyEqKVs : List (String × Json) → List (String × Json) → Bool
  | [], _ => true
  | (k, v) :: rest, ys =>
    (match ys.find? (fun kv => kv.1 == k) with
     | some kv => pyEq v kv.2
     | none => false) && pyEqKVs rest ys

end

mutual

/-- Python `<` on JSON values, `none` modelling a raised `TypeError`:
numbers (`int`/`bool`) compare numerically, strings lexicographically,
lists lexicographically; any other comparison raises. -/
def pyLt : Json → Json → Option Bool
  | .int a, .int b => some (decide (a < b))
  | .int a, .bool b => some (decide (a < if b then 1 else 0))
  | .bool a, .int b => some (decide ((if a then (1 : Int) else 0) < b))
  | .bool a, .bool b => some (decide ((if a then (1 : Int) else 0) < if b then 1 else 0))
  | .str a, .str b => some (decide (a < b))
  | .arr xs, .arr ys => pyLtList xs ys
  | _, _ => none

/-- Python `<` on lists: skip `pyEq`-equal heads, decide at the first
difference, a strict prefix is smaller. -/
def pyLtList : List Json → List Json → Option Bool
  | [], [] => some false
  | [], _ :: _ => some true
  | _ :: _, [] => some false
  | x :: xs, y :: ys => if pyEq x y then pyLtList xs ys else pyLt x y

end

/-- Insert into a sorted list using Python `<`, `none` when a comparison
raises `TypeError`. -/
def pyInsert (x : Json) : List Json → Option (List Json)
  | [] => some [x]
  | y :: ys =>
    match pyLt x y with
    | none => none
    | some true => some (x :: y :: ys)
    | some false => (pyInsert x ys).map (fun l => y :: l)

/-- Python `sorted(...)`: `none` models the `TypeError` raised on a list
with incomparable elements.  (CPython's timsort may compare a slightly
different set of pairs than insertion sort; on lists whose elements are
pairwise comparable — every case the program's claims exercise — both
succeed with the same result.) -/
def pySorted : List Json → Option (List Json)
  | [] => some []
  | x :: xs =>
    match pySorted xs with
    | none => none
    | some s => pyInsert x s

/-- A JSON value Python can hash (place in a `set`). -/
def pyHashable : Json → Bool
  | .arr _ => false
  | .obj _ => false
  | _ => true

/-- First-occurrence deduplication by `pyEq` with an accumulator of the
values already seen. -/
def pyDedupAux : List Json → List Json → List Json
  | _, [] => []
  | seen, x :: xs =>
    if seen.any (fun y => pyEq y x) then pyDedupAux seen xs
    else x :: pyDedupAux (x :: seen) xs

/-- First-occurrence deduplication by `pyEq`, the value list of Python's
`set(...)`. -/
def pyDedup (l : List Json) : List Json :=
  pyDedupAux [] l

/-- Python `set(...)`: `none` models the `TypeError` on an unhashable
element. -/
def pySet (l : List Json) : Option (List Json) :=
  if l.all pyHashable then some (pyDedup l) else none

/-- Size of the Python intersection `setC & setU` of two already
deduplicated lists. -/
def pyInterCount (setc setu : List Json) : Nat :=
  (setc.filter (fun x => setu.any (fun y => pyEq x y))).length

/-- Digits of a decimal numeral to a natural number, `none` when some
character is not a digit or the list is empty. -/
def natOfDigits? (cs : List Char) : Option Nat :=
  if cs ≠ [] && cs.all Char.isDigit then
    some (cs.foldl (fun acc c => acc * 10 + (c.toNat - '0'.toNat)) 0)
  else
    none

/-- Whitespace for Python's `str.strip` and `int(...)`: space, tab,
newline, carriage return, vertical tab, form feed. -/
def pyWs (c : Char) : Bool :=
  c == ' ' || c == '\t' || c == '\n' || c == '\r' || c == '\x0b' || c == '\x0c'

/-- Drop leading and trailing whitespace from a character list. -/
def stripChars (cs : List Char) : List Char :=
  ((cs.dropWhile pyWs).reverse.dropWhile pyWs).reverse

/-- Python `int(s)` on a string: surrounding whitespace is stripped, an
optional sign is allowed, then a non-empty run of decimal digits.
(Python additionally accepts underscore digit separators and non-ASCII
digits; those are outside the model.) -/
def pyIntOfString (s : String) : Option Int :=
  match stripChars s.data with
  | [] => none
  | '+' :: rest => (natOfDigits? rest).map Int.ofNat
  | '-' :: rest => (natOfDigits? rest).map (fun n => -(n : Int))
  | cs => (natOfDigits? cs).map Int.ofNat

/-- Python `int(v)` on a JSON value: ints are themselves, bools are 0/1,
strings are parsed; anything else raises `TypeError` (`none`). -/
def pyIntOfJson : Json → Option Int
  | .int n => some n
  | .bool b => some (if b then 1 else 0)
  | .str s => pyIntOfString s
  | _ => none

/-- Python `dict.get(key, default)` on a JSON object (association list
with unique keys, as `json.loads` produces). -/
def jGetD (kvs : List (String × Json)) (k : String) (d : Json) : Json :=
  match kvs.find? (fun kv => kv.1 == k) with
  | some kv => kv.2
  | none => d

/-- Python `dict.get(key)`: a missing key yields `None`, which is
`Json.null` — indistinguishable from a stored JSON `null`. -/
def jGet (kvs : List (String × Json)) (k : String) : Json :=
  jGetD kvs k .null

/-- Lookup returning `none` when the key is missing (Python `k in d`
followed by `d[k]`). -/
def jFind (kvs : List (String × Json)) (k : String) : Option Json :=
  match kvs.find? (fun kv => kv.1 == k) with
  | some kv => some kv.2
  | none => none

/-- Python `str.lower` (ASCII model of Unicode lowercasing; every string
the program's claims exercise is ASCII). -/
def pyLower (s : String) : String :=
  String.mk (s.data.map Char.toLower)

/-- Python `str.strip`. -/
def pyStrip (s : String) : String :=
  String.mk (stripChars s.data)

/-- Does the first character list start with the second· continued:
`startsWithL n h` is true when `n` is an initial segment of `h`. -/
def startsWithL : List Char → List Char → Bool
  | [], _ => true
  | _ :: _, [] => false
  | a :: as, b :: bs => a == b && startsWithL as bs

/-- Contiguous-sublist test on character lists. -/
def substrL : List Char → List Char → Bool
  | n, [] => n.isEmpty
  | n, h :: hs => startsWithL n (h :: hs) || substrL n hs

/-- Python `a in b` on strings: `a` is a contiguous substring of `b`. -/
def pyIn (a b : String) : Bool :=
  substrL a.data b.data

end FastApiPython

namespace FastApiPython

/-- Skip JSON whitespace. -/
def jsonWs : List Char → List Char
  | c :: rest =>
    if c == ' ' || c == '\t' || c == '\n' || c == '\r' then jsonWs rest else c :: rest
  | [] => []

/-- Single-character JSON string escapes (`\uXXXX` escapes are outside
the model). -/
def escChar : Char → Option Char
  | '"' => some '"'
  | '\\' => some '\\'
  | '/' => some '/'
  | 'b' => some (Char.ofNat 8)
  | 'f' => some (Char.ofNat 12)
  | 'n' => some '\n'
  | 'r' => some '\r'
  | 't' => some '\t'
  | _ => none

/-- Characters of a JSON string body up to the closing quote. -/
def parseStrChars : List Char → Option (List Char × List Char)
  | [] => none
  | '"' :: rest => some ([], rest)
  | '\\' :: e :: rest =>
    match escChar e with
    | none => none
    | some c =>
      match parseStrChars rest with
      | none => none
      | some (s, r) => some (c :: s, r)
  | c :: rest =>
    match parseStrChars rest with
    | none => none
    | some (s, r) => some (c :: s, r)

/-- Longest run of leading decimal digits. -/
def takeDigits : List Char → (List Char × List Char)
  | c :: cs =>
    if c.isDigit then
      let (d, r) := takeDigits cs
      (c :: d, r)
    else ([], c :: cs)
  | [] => ([], [])

/-- Does the input continue a numeric literal (further digit, fraction or
exponent)· used to reject leading zeros and float literals. -/
def isNumCont : List Char → Bool
  | c :: _ => c.isDigit || c == '.' || c == 'e' || c == 'E'
  | [] => false

/-- Unsigned part of a strict JSON integer literal: `0`, or a nonzero
digit followed by digits; a following `.`/`e`/`E` (a float literal) is
outside the model and rejected. -/
def parseNatLit : List Char → Option (Nat × List Char)
  | '0' :: rest => if isNumCont rest then none else some (0, rest)
  | c :: cs =>
    if c.isDigit then
      let (d, r) := takeDigits (c :: cs)
      if isNumCont r then none
      else some (d.foldl (fun a ch => a * 10 + (ch.toNat - '0'.toNat)) 0, r)
    else none
  | [] => none

/-- Strict JSON integer literal with optional leading minus. -/
def parseIntLit : List Char → Option (Int × List Char)
  | '-' :: rest => (parseNatLit rest).map (fun p => (-(p.1 : Int), p.2))
  | cs => (parseNatLit cs).map (fun p => ((p.1 : Int), p.2))

/-- Add a parsed object member; a duplicate key keeps the later value,
as Python's `json.loads` does. -/
def objInsert (k : String) (v : Json) (kvs : List (String × Json)) :
    List (String × Json) :=
  match kvs.find? (fun kv => kv.1 == k) with
  | some _ => kvs
  | none => (k, v) :: kvs

mutual

/-- Recursive-descent JSON value parser (fuel-indexed). -/
def parseVal : Nat → List Char → Option (Json × List Char)
  | 0, _ => none
  | fuel + 1, cs =>
    match jsonWs cs with
    | 'n' :: 'u' :: 'l' :: 'l' :: rest => some (.null, rest)
    | 't' :: 'r' :: 'u' :: 'e' :: rest => some (.bool true, rest)
    | 'f' :: 'a' :: 'l' :: 's' :: 'e' :: rest => some (.bool false, rest)
    | '"' :: rest =>
      match parseStrChars rest with
      | some (s, r) => some (.str (String.mk s), r)
      | none => none
    | '[' :: rest =>
      match jsonWs rest with
      | ']' :: r => some (.arr [], r)
      | cs2 =>
        match parseElems fuel cs2 with
        | some (xs, r) => some (.arr xs, r)
        | none => none
    | '\x7b' :: rest =>
      match jsonWs rest with
      | '\x7d' :: r => some (.obj [], r)
      | cs2 =>
        match parseMembers fuel cs2 with
        | some (kvs, r) => some (.obj kvs, r)
        | none => none
    | cs1 =>
      match parseIntLit cs1 with
      | some (n, r) => some (.int n, r)
      | none => none

/-- Comma-separated JSON array elements up to the closing bracket. -/
def parseElems : Nat → List Char → Option (List Json × List Char)
  | 0, _ => none
  | fuel + 1, cs =>
    match parseVal fuel cs with
    | none => none
    | some (v, r) =>
      match jsonWs r with
      | ',' :: r2 =>
        match parseElems fuel r2 with
        | some (xs, r3) => some (v :: xs, r3)
        | none => none
      | ']' :: r2 => some ([v], r2)
      | _ => none

/-- Comma-separated JSON object members up to the closing brace. -/
def parseMembers : Nat → List Char → Option (List (String × Json) × List Char)
  | 0, _ => none
  | fuel + 1, cs =>
    match jsonWs cs with
    | '"' :: rest =>
      match parseStrChars rest with
      | none => none
      | some (k, r) =>
        match jsonWs r with
        | ':' :: r2 =>
          match parseVal fuel r2 with
          | none => none
          | some (v, r3) =>
            match jsonWs r3 with
            | ',' :: r4 =>
              match parseMembers fuel r4 with
              | some (kvs, r5) => some (objInsert (String.mk k) v kvs, r5)
              | none => none
            | '\x7d' :: r4 => some ([(String.mk k, v)], r4)
            | _ => none
        | _ => none
    | _ => none

end

/-- Python `json.loads`: parse a complete JSON document, allowing
trailing whitespace only. -/
def jsonLoads (s : String) : Option Json :=
  match parseVal (2 * s.length + 2) s.data with
  | some (v, rest) => if (jsonWs rest).isEmpty then some v else none
  | none => none

end FastApiPython

namespace FastApiPython

/-- `status_Grade` from `app/core/helper.py`. -/
inductive status_Grade where
  | checked : status_Grade
  | rated : status_Grade
  | not_verified : status_Grade
deriving DecidableEq, Repr

/-- `status_Course` from `app/core/helper.py`. -/
inductive status_Course where
  | public : status_Course
  | «private» : status_Course
  | draft : status_Course
deriving DecidableEq, Repr

/-- The `Course` row (`app/models.py`), restricted to the fields the
verified logic reads. -/
structure Course where
  id : Nat
  status : status_Course
  creator_id : Option Nat
deriving DecidableEq, Repr

/-- The `UC` enrollment row (`app/models.py`). -/
structure UC where
  user_id : Nat
  course_id : Nat
deriving DecidableEq, Repr

/-- The `Submission` row, with the fields the API reads and writes
(`SubmissionResponse` in `app/schemas.py` and the constructor call in
`create_or_update_submission`). -/
structure Submission where
  id : Nat
  course_id : Nat
  topic_key : String
  lecture_key : String
  task_key : String
  user_id : Nat
  answer : String
  status : status_Grade
  grade : Option Int
  teacher_comment : Option String
deriving DecidableEq, Repr

/-- The `SubmissionCreate` request body (`app/schemas.py`). -/
structure SubmissionCreate where
  course_id : Nat
  topic_key : String
  lecture_key : String
  task_key : String
  answer : String
deriving DecidableEq, Repr

/-- The `SubmissionUpdateGrade` request body (`app/schemas.py`). -/
structure SubmissionUpdateGrade where
  status : status_Grade := .rated
  grade : Option Int := none
  teacher_comment : Option String := none
deriving DecidableEq, Repr

/-- The auto-check sentinel comment the source writes literally
("Автоматическая проверка"). -/
def autoCheckComment : String := "Автоматическая проверка"

/-- `_check_answer` from `app/api/submissions.py` (lines 54-161).
Returns `none` when the Python function raises: the `text_answer` branch
calls `.strip()` on `task.get("correct_answer", "")` without a guard, so
a present non-string `correct_answer` raises `AttributeError` outside
any `try`.  Every other malformed input is caught by the source's
`except` clauses and folded into the returned verdict, exactly as
written. -/
def _check_answer (task : List (String × Json)) (user_answer : String) :
    Option (Bool × Option Int) :=
  let task_type := jGetD task "type" (.str "manual")
  if pyEq task_type (.str "manual") then
    some (false, none)
  else if pyEq task_type (.str "single_choice") then
    match jGet task "correct_answer" with
    | .null => some (false, none)
    | correct_answer =>
      match pyIntOfJson correct_answer, pyIntOfString user_answer with
      | some c, some u =>
        if u == c then some (true, some 5) else some (false, some 1)
      | _, _ => some (false, some 1)
  else if pyEq task_type (.str "multiple_choice") then
    let correct_answer_str := jGet task "correct_answer"
    if pyFalsy correct_answer_str then some (false, none)
    else
      match
        (match correct_answer_str with
         | .str s => jsonLoads s
         | v => some v) with
      | none => some (false, some 1)
      | some correct_parsed =>
        match correct_parsed with
        | .arr correct_answers =>
          match jsonLoads user_answer with
          | none => some (false, some 1)
          | some user_parsed =>
            match user_parsed with
            | .arr user_answers =>
              match pySorted correct_answers, pySorted user_answers with
              | some cs, some us =>
                if pyEqList cs us then some (true, some 5)
                else
                  match pySet correct_answers, pySet user_answers with
                  | some setc, some setu =>
                    let correct_count := pyInterCount setc setu
                    let total_correct := correct_answers.length
                    if total_correct == 0 then some (false, some 1)
                    else if 5 * correct_count ≥ 4 * total_correct then
                      some (false, some 4)
                    else if 2 * correct_count ≥ total_correct then
                      some (false, some 3)
                    else some (false, some 2)
                  | _, _ => some (false, some 1)
              | _, _ => some (false, some 1)
            | _ => some (false, some 1)
        | _ => some (false, none)
  else if pyEq task_type (.str "text_answer") then
    match jGetD task "correct_answer" (.str "") with
    | .str s0 =>
      let correct_answer := pyLower (pyStrip s0)
      let user_answer_clean := pyLower (pyStrip user_answer)
      if correct_answer == "" then some (false, none)
      else if user_answer_clean == correct_answer then some (true, some 5)
      else if pyIn correct_answer user_answer_clean ||
              pyIn user_answer_clean correct_answer then
        some (false, some 3)
      else some (false, some 1)
    | _ => none
  else
    some (false, none)

/-- `_get_task_from_course` from `app/api/submissions.py` (lines 40-51).
`content?` is the result of `_load_course_content`: `none` when loading
raised (missing file, bad JSON — the `except Exception` swallows the
`HTTPException` too).  A missing key or a non-dict node at any level of
`content[topic_key]["lectures"][lecture_key]["tasks"][task_key]` falls
through to `None`, either by the `in` guards or because the raised
`TypeError` is caught. -/
def _get_task_from_course (content? : Option Json)
    (topic_key lecture_key task_key : String) : Option Json :=
  match content? with
  | none => none
  | some content =>
    match content with
    | .obj ckvs =>
      match jFind ckvs topic_key with
      | some (.obj tkvs) =>
        match jFind tkvs "lectures" with
        | some (.obj lkvs) =>
          match jFind lkvs lecture_key with
          | some (.obj lecture) =>
            match jFind lecture "tasks" with
            | some (.obj tasks) => jFind tasks task_key
            | _ => none
          | _ => none
        | _ => none
      | _ => none
    | _ => none

/-- The write performed by `create_or_update_submission`
(`app/api/submissions.py` lines 164-235), given the already-looked-up
existing row and task definition.  `none` models an exception escaping
to the caller: `task_info.get` on a truthy non-dict task, or
`_check_answer` raising.  Otherwise `some` of the stored record: the
auto-check happens when the task exists, is truthy, and its type is not
`"manual"`; a non-`None` grade sets `status = rated`, the grade and the
sentinel comment; anything else stores `not_verified` with null grade
and comment.  An existing row for the same natural key is overwritten in
place, else a fresh row `new_id` is created. -/
def create_or_update_submission (existing : Option Submission)
    (task_info : Option Json) (submission : SubmissionCreate)
    (user_id : Nat) (new_id : Nat) : Option Submission :=
  let autoStep : Option (Option Int) :=
    match task_info with
    | none => some none
    | some ti =>
      if pyFalsy ti then some none
      else
        match ti with
        | .obj kvs =>
          if pyEq (jGet kvs "type") (.str "manual") then some none
          else
            match _check_answer kvs submission.answer with
            | none => none
            | some (_, grade) => some grade
        | _ => none
  match autoStep with
  | none => none
  | some auto_grade =>
    let auto_checked := auto_grade.isSome
    some <|
      match existing with
      | some ex =>
        if auto_checked then
          { ex with
              answer := submission.answer
              status := .rated
              grade := auto_grade
              teacher_comment := some autoCheckComment }
        else
          { ex with
              answer := submission.answer
              status := .not_verified
              grade := none
              teacher_comment := none }
      | none =>
        { id := new_id
          course_id := submission.course_id
          topic_key := submission.topic_key
          lecture_key := submission.lecture_key
          task_key := submission.task_key
          user_id := user_id
          answer := submission.answer
          status := if auto_checked then .rated else .not_verified
          grade := auto_grade
          teacher_comment := if auto_checked then some autoCheckComment else none }

/-- The mutation performed by `grade_submission`
(`app/api/submissions.py` lines 364-410) once the submission and course
are found and the caller is the course creator.  On an auto-checked row
(status `rated` with the sentinel comment) only `grade` (when supplied)
and `teacher_comment` change, a new comment equal to the sentinel or
`None` is ignored and an empty comment re-stores the sentinel;
otherwise `status`, `grade` and `teacher_comment` are overwritten with
the payload verbatim. -/
def grade_submission (submission : Submission)
    (payload : SubmissionUpdateGrade) : Submission :=
  let is_auto_checked :=
    submission.status = status_Grade.rated ∧
      submission.teacher_comment = some autoCheckComment
  if is_auto_checked then
    let grade' :=
      match payload.grade with
      | some g => some g
      | none => submission.grade
    let comment' :=
      match payload.teacher_comment with
      | some c =>
        if c ≠ "" ∧ c ≠ autoCheckComment then some c
        else if c = "" then some autoCheckComment
        else submission.teacher_comment
      | none => submission.teacher_comment
    { submission with grade := grade', teacher_comment := comment' }
  else
    { submission with
        status := payload.status
        grade := payload.grade
        teacher_comment := payload.teacher_comment }

/-- Error taxonomy of the embedded endpoints: HTTP 404 and 403. -/
inductive ApiError where
  | notFound : ApiError
  | forbidden : ApiError
deriving DecidableEq, Repr

/-- The status-policy gate of `get_course_content`
(`app/api/courses.py` lines 105-117): draft courses require the creator,
private courses the creator or an enrollment row, public courses are
open to everyone. -/
def course_content_access (course : Course) (user_id : Nat)
    (ucs : List UC) : Except ApiError Unit :=
  if course.status = status_Course.draft then
    if course.creator_id ≠ some user_id then .error .forbidden
    else .ok ()
  else if course.status = status_Course.private then
    if course.creator_id = some user_id then .ok ()
    else
      match ucs.find? (fun uc =>
          decide (uc.course_id = course.id) && decide (uc.user_id = user_id)) with
      | some _ => .ok ()
      | none => .error .forbidden
  else .ok ()

/-- Database state visible to `list_for_review`. -/
structure DB where
  courses : List Course
  ucs : List UC
  submissions : List Submission
deriving Repr

/-- Optional lecture-key filter applied at the end of both review
queries. -/
def lectureFilter (lecture_key? : Option String) (l : List Submission) :
    List Submission :=
  match lecture_key? with
  | none => l
  | some k => l.filter (fun s => decide (s.lecture_key = k))

/-- `list_for_review` from `app/api/submissions.py` (lines 258-335),
up to the response-shaping loop (which copies records; visibility is
decided here).  With a `course_id`: 404 when the course is missing, 403
unless the caller created it, and for a public course only submissions
of enrolled users (none at all when nobody is enrolled).  Without a
`course_id`: all submissions of the caller's courses, where each public
course is filtered against the set of users enrolled in ANY public
course of the caller — the source builds one `enrolled_user_ids` set
across all of its public courses.  Python iterates the id set
`teacher_course_ids` and finds the first course with each id; this is
mirrored with `dedup` and `find?`. -/
def list_for_review (db : DB) (current_user_id : Nat)
    (course_id? : Option Nat) (lecture_key? : Option String) :
    Except ApiError (List Submission) :=
  match course_id? with
  | some course_id =>
    match db.courses.find? (fun c => decide (c.id = course_id)) with
    | none => .error .notFound
    | some course =>
      if course.creator_id ≠ some current_user_id then .error .forbidden
      else
        let base := db.submissions.filter (fun s => decide (s.course_id = course_id))
        if course.status = status_Course.public then
          let enrolled_user_ids :=
            (db.ucs.filter (fun uc => decide (uc.course_id = course_id))).map
              (fun uc => uc.user_id)
          if enrolled_user_ids.isEmpty then .ok []
          else
            .ok (lectureFilter lecture_key?
              (base.filter (fun s => decide (s.user_id ∈ enrolled_user_ids))))
        else .ok (lectureFilter lecture_key? base)
  | none =>
    let teacher_courses :=
      db.courses.filter (fun c => decide (c.creator_id = some current_user_id))
    let teacher_course_ids := (teacher_courses.map (fun c => c.id)).dedup
    if teacher_course_ids.isEmpty then .ok []
    else
      let public_course_ids :=
        ((teacher_courses.filter (fun c => decide (c.status = status_Course.public))).map
          (fun c => c.id)).dedup
      if !public_course_ids.isEmpty then
        let enrolled_user_ids :=
          (db.ucs.filter (fun uc => decide (uc.course_id ∈ public_course_ids))).map
            (fun uc => uc.user_id)
        let conditions : List (Submission → Bool) :=
          teacher_course_ids.filterMap (fun cid =>
            match teacher_courses.find? (fun c => decide (c.id = cid)) with
            | some course_obj =>
              if course_obj.status = status_Course.public then
                if !enrolled_user_ids.isEmpty then
                  some (fun s =>
                    decide (s.course_id = cid) && decide (s.user_id ∈ enrolled_user_ids))
                else none
              else some (fun s => decide (s.course_id = cid))
            | none => some (fun s => decide (s.course_id = cid)))
        if conditions.isEmpty then .ok []
        else
          .ok (lectureFilter lecture_key?
            (db.submissions.filter (fun s => conditions.any (fun cond => cond s))))
      else
        .ok (lectureFilter lecture_key?
          (db.submissions.filter (fun s => decide (s.course_id ∈ teacher_course_ids))))

end FastApiPython

namespace FastApiPython

/-! Support lemmas connecting the executable Python models to
mathematical notions. -/

theorem pyEq_str (a b : String) : pyEq (.str a) (.str b) = (a == b) := by
  simp [pyEq]

theorem startsWithL_iff (n : List Char) :
    ∀ h, startsWithL n h = true ↔ ∃ t, h = n ++ t := by
  induction n with
  | nil => intro h; simp [startsWithL]
  | cons a as ih =>
    intro h
    cases h with
    | nil => simp [startsWithL]
    | cons b bs =>
      simp only [startsWithL, Bool.and_eq_true, beq_iff_eq, ih, List.cons_append,
        List.cons.injEq]
      constructor
      · rintro ⟨hab, t, ht⟩
        exact ⟨t, hab.symm, ht⟩
      · rintro ⟨t, hba, ht⟩
        exact ⟨hba.symm, t, ht⟩

theorem substrL_iff (n : List Char) :
    ∀ h, substrL n h = true ↔ ∃ p q, h = p ++ n ++ q := by
  intro h
  induction h with
  | nil =>
    cases n with
    | nil => simp [substrL]
    | cons a as => simp [substrL, List.isEmpty, eq_comm, List.append_eq_nil]
  | cons c cs ih =>
    simp only [substrL, Bool.or_eq_true, startsWithL_iff, ih]
    constructor
    · rintro (⟨t, ht⟩ | ⟨p, q, hpq⟩)
      · exact ⟨[], t, by simp [ht]⟩
      · exact ⟨c :: p, q, by simp [hpq]⟩
    · rintro ⟨p, q, hpq⟩
      cases p with
      | nil => exact Or.inl ⟨q, by simpa using hpq⟩
      | cons x xs =>
        right
        rw [List.cons_append, List.cons_append] at hpq
        injection hpq with h1 h2
        exact ⟨xs, q, h2⟩

/-- Python's string `in` agrees with contiguous-substring decomposition. -/
theorem pyIn_iff (a b : String) :
    pyIn a b = true ↔ ∃ p q, b.data = p ++ a.data ++ q :=
  substrL_iff a.data b.data

end FastApiPython

namespace FastApiPython

/-- C4: course content viewing obeys the status policy — draft courses
are visible exactly to the creator, private courses to the creator or an
enrolled user (an enrollment row with this user and course), public
courses to every user; any denial is the Forbidden condition. -/
theorem course_content_access_policy :
    ∀ (course : Course) (uid : Nat) (ucs : List UC),
      (course.status = .draft →
        (course_content_access course uid ucs = .ok () ↔ course.creator_id = some uid)) ∧
      (course.status = .«private» →
        (course_content_access course uid ucs = .ok () ↔
          course.creator_id = some uid ∨
            ∃ uc ∈ ucs, uc.user_id = uid ∧ uc.course_id = course.id)) ∧
      (course.status = .public → course_content_access course uid ucs = .ok ()) ∧
      (course_content_access course uid ucs ≠ .ok () →
        course_content_access course uid ucs = .error .forbidden) := by
  intro course uid ucs
  unfold course_content_access
  rcases hst : course.status with _ | _ | _ <;> simp [hst]
  by_cases hc : course.creator_id = some uid
  · simp [hc]
  · simp only [hc, if_neg]
    cases hf : ucs.find? (fun uc =>
        decide (uc.course_id = course.id) && decide (uc.user_id = uid)) with
    | none =>
      have hno : ¬∃ uc ∈ ucs, uc.user_id = uid ∧ uc.course_id = course.id := by
        rintro ⟨uc, hmem, h1, h2⟩
        have := List.find?_eq_none.mp hf uc hmem
        simp [h1, h2] at this
      simp [hc, hno]
    | some uc =>
      have hp := List.find?_some hf
      have hm := List.mem_of_find?_eq_some hf
      simp only [Bool.and_eq_true, decide_eq_true_eq] at hp
      simp [hc]
      exact ⟨uc, hm, hp.2, hp.1⟩

/-- Witness for C4 at a concrete public course and non-enrolled user. -/
theorem course_content_access_policy_witness :
    course_content_access { id := 1, status := .public, creator_id := some 1 } 2 [] = .ok () :=
  (course_content_access_policy { id := 1, status := .public, creator_id := some 1 } 2 []).2.2.1 rfl

end FastApiPython

namespace FastApiPython

/-- C5: for a `single_choice` task both `correct_answer` and the raw
answer are parsed as integers and compared exactly: equal means
`(true, 5)`, unequal `(false, 1)`; an absent `correct_answer` (Python's
`None`, which also covers a stored JSON `null`) means `(false, null)`;
a present but unparsable `correct_answer` or raw answer means
`(false, 1)`. -/
theorem single_choice_grading :
    ∀ (task : List (String × Json)) (ua : String),
      jGetD task "type" (.str "manual") = .str "single_choice" →
      (jGet task "correct_answer" = .null → _check_answer task ua = some (false, none)) ∧
      (∀ c u, pyIntOfJson (jGet task "correct_answer") = some c →
        pyIntOfString ua = some u →
        _check_answer task ua =
          some (if u = c then (true, some 5) else (false, some 1))) ∧
      (jGet task "correct_answer" ≠ .null →
        pyIntOfJson (jGet task "correct_answer") = none →
        _check_answer task ua = some (false, some 1)) ∧
      (jGet task "correct_answer" ≠ .null → pyIntOfString ua = none →
        _check_answer task ua = some (false, some 1)) := by
  intro task ua hty
  have hbranch : _check_answer task ua =
      (match jGet task "correct_answer" with
       | .null => some (false, none)
       | correct_answer =>
         match pyIntOfJson correct_answer, pyIntOfString ua with
         | some c, some u =>
           if u == c then some (true, some 5) else some (false, some 1)
         | _, _ => some (false, some 1)) := by
    unfold _check_answer
    rw [hty]
    simp [pyEq_str]
  refine ⟨fun h => by rw [hbranch, h], ?_, ?_, ?_⟩
  · intro c u hc hu
    rw [hbranch]
    split
    · next heq => rw [heq] at hc; simp [pyIntOfJson] at hc
    · next ca hne =>
      rw [hc, hu]
      by_cases he : u = c <;> simp [he]
  · intro hv hc
    rw [hbranch]
    split
    · next heq => exact absurd heq hv
    · next ca hne =>
      rw [hc]
  · intro hv hu
    rw [hbranch]
    split
    · next heq => exact absurd heq hv
    · next ca hne =>
      rw [hu]
      rcases hp : pyIntOfJson (jGet task "correct_answer") with _ | c <;> rfl

/-- Witness for C5: the spec's example `correct_answer = 2`, answer
`"2"` grades `(true, 5)`. -/
theorem single_choice_grading_witness :
    _check_answer [("type", .str "single_choice"), ("correct_answer", .int 2)] "2" =
      some (if (2 : Int) = 2 then (true, some 5) else (false, some 1)) :=
  (single_choice_grading [("type", .str "single_choice"), ("correct_answer", .int 2)] "2"
    rfl).2.1 2 2 rfl rfl

end FastApiPython

namespace FastApiPython

/-- The `text_answer` branch of `_check_answer`, once the dispatch on
`task.get("type", "manual")` and the string-typed `correct_answer` are
fixed (shared by the text-answer claims). -/
theorem check_answer_text_branch (task : List (String × Json)) (ua s : String)
    (hty : jGetD task "type" (.str "manual") = .str "text_answer")
    (hca : jGetD task "correct_answer" (.str "") = .str s) :
    _check_answer task ua =
      (let correct_answer := pyLower (pyStrip s)
       let user_answer_clean := pyLower (pyStrip ua)
       if correct_answer == "" then some (false, none)
       else if user_answer_clean == correct_answer then some (true, some 5)
       else if pyIn correct_answer user_answer_clean ||
               pyIn user_answer_clean correct_answer then
         some (false, some 3)
       else some (false, some 1)) := by
  unfold _check_answer
  rw [hty, hca]
  simp [pyEq_str]

/-- Lowercasing yields the empty string only on the empty string. -/
theorem pyLower_eq_empty_iff (x : String) : pyLower x = "" ↔ x = "" := by
  unfold pyLower
  constructor
  · intro h
    have h2 : (String.mk (x.data.map Char.toLower)).data = String.data "" := by rw [h]
    simp at h2
    cases x
    simp_all
  · intro h
    subst h
    rfl

/-- The empty character list is a contiguous sublist of anything. -/
theorem substrL_nil (h : List Char) : substrL [] h = true := by
  cases h <;> simp [substrL, startsWithL]

/-- C6: for a `text_answer` task with a string (or absent, defaulting to
empty) `correct_answer`, both sides are stripped and lower-cased; an
empty normalized `correct_answer` yields `(false, null)`; exact match of
the normalized strings yields `(true, 5)`; otherwise substring
containment in either direction yields `(false, 3)`, else `(false, 1)`. -/
theorem text_answer_grading :
    ∀ (task : List (String × Json)) (ua s : String),
      jGetD task "type" (.str "manual") = .str "text_answer" →
      jGetD task "correct_answer" (.str "") = .str s →
      ((pyLower (pyStrip s) = "" → _check_answer task ua = some (false, none)) ∧
       (pyLower (pyStrip s) ≠ "" → pyLower (pyStrip ua) = pyLower (pyStrip s) →
         _check_answer task ua = some (true, some 5)) ∧
       (pyLower (pyStrip s) ≠ "" → pyLower (pyStrip ua) ≠ pyLower (pyStrip s) →
         ((∃ p q, (pyLower (pyStrip ua)).data = p ++ (pyLower (pyStrip s)).data ++ q) ∨
          (∃ p q, (pyLower (pyStrip s)).data = p ++ (pyLower (pyStrip ua)).data ++ q)) →
         _check_answer task ua = some (false, some 3)) ∧
       (pyLower (pyStrip s) ≠ "" → pyLower (pyStrip ua) ≠ pyLower (pyStrip s) →
         ¬((∃ p q, (pyLower (pyStrip ua)).data = p ++ (pyLower (pyStrip s)).data ++ q) ∨
           (∃ p q, (pyLower (pyStrip s)).data = p ++ (pyLower (pyStrip ua)).data ++ q)) →
         _check_answer task ua = some (false, some 1))) := by
  intro task ua s hty hca
  have hbranch := check_answer_text_branch task ua s hty hca
  refine ⟨?_, ?_, ?_, ?_⟩
  · intro h
    rw [hbranch]
    simp [h]
  · intro hne heq
    rw [hbranch]
    simp [hne, heq]
  · intro hne hneq hsub
    have h1 : (pyIn (pyLower (pyStrip s)) (pyLower (pyStrip ua)) ||
        pyIn (pyLower (pyStrip ua)) (pyLower (pyStrip s))) = true := by
      rcases hsub with ⟨p, q, h⟩ | ⟨p, q, h⟩
      · simp [pyIn_iff]
        exact Or.inl ⟨p, q, by rw [h, List.append_assoc]⟩
      · simp [pyIn_iff]
        exact Or.inr ⟨p, q, by rw [h, List.append_assoc]⟩
    rw [hbranch]
    simp [hne, hneq, h1]
  · intro hne hneq hsub
    have h1 : (pyIn (pyLower (pyStrip s)) (pyLower (pyStrip ua)) ||
        pyIn (pyLower (pyStrip ua)) (pyLower (pyStrip s))) = false := by
      rw [Bool.or_eq_false_iff]
      constructor
      · rw [← Bool.not_eq_true, pyIn_iff]
        intro ⟨p, q, h⟩
        exact hsub (Or.inl ⟨p, q, h⟩)
      · rw [← Bool.not_eq_true, pyIn_iff]
        intro ⟨p, q, h⟩
        exact hsub (Or.inr ⟨p, q, h⟩)
    rw [hbranch]
    simp [hne, hneq, h1]

/-- Witness for C6: the spec's example grades `("Paris", "paris")` as
`(true, 5)`. -/
theorem text_answer_grading_witness :
    _check_answer [("type", .str "text_answer"), ("correct_answer", .str "Paris")] "paris" =
      some (true, some 5) :=
  (text_answer_grading [("type", .str "text_answer"), ("correct_answer", .str "Paris")]
    "paris" "Paris" rfl rfl).2.1 (by decide) (by decide)

/-- C10: for a `text_answer` task whose stripped `correct_answer` is
non-empty, a whitespace-only raw answer normalizes to the empty string,
which is a substring of the correct answer, so the verdict is
`(false, 3)`. -/
theorem whitespace_answer_scores_three :
    ∀ (task : List (String × Json)) (ua s : String),
      jGetD task "type" (.str "manual") = .str "text_answer" →
      jGetD task "correct_answer" (.str "") = .str s →
      pyStrip s ≠ "" →
      pyStrip ua = "" →
      _check_answer task ua = some (false, some 3) := by
  intro task ua s hty hca hs hua
  have hbranch := check_answer_text_branch task ua s hty hca
  have hlc : pyLower (pyStrip s) ≠ "" := fun h => hs ((pyLower_eq_empty_iff _).mp h)
  have hlu : pyLower (pyStrip ua) = "" := by rw [hua]; rfl
  have hneq : pyLower (pyStrip ua) ≠ pyLower (pyStrip s) := by
    rw [hlu]
    exact fun h => hlc h.symm
  have hsub : pyIn (pyLower (pyStrip ua)) (pyLower (pyStrip s)) = true := by
    rw [hlu]
    exact substrL_nil _
  rw [hbranch]
  simp [hlc, hneq, hsub]

/-- Witness for C10 at a concrete task and whitespace answer. -/
theorem whitespace_answer_scores_three_witness :
    _check_answer [("type", .str "text_answer"), ("correct_answer", .str "Paris")] "   " =
      some (false, some 3) :=
  whitespace_answer_scores_three
    [("type", .str "text_answer"), ("correct_answer", .str "Paris")] "   " "Paris"
    rfl rfl (by decide) (by decide)

end FastApiPython
namespace FastApiPython

/-! Dispatch lemmas: `_check_answer` restricted to each `task.type`
branch (shared between the grading claims). -/

/-- The `manual` branch of `_check_answer`. -/
theorem check_eq_manualBranch (task : List (String × Json)) (ua : String)
    (h : pyEq (jGetD task "type" (.str "manual")) (.str "manual") = true) :
    _check_answer task ua = some (false, none) := by
  unfold _check_answer
  simp [h]

/-- The `single_choice` branch of `_check_answer`. -/
theorem check_eq_singleBranch (task : List (String × Json)) (ua : String)
    (h1 : pyEq (jGetD task "type" (.str "manual")) (.str "manual") = false)
    (h2 : pyEq (jGetD task "type" (.str "manual")) (.str "single_choice") = true) :
    _check_answer task ua =
      (match jGet task "correct_answer" with
       | .null => some (false, none)
       | correct_answer =>
         match pyIntOfJson correct_answer, pyIntOfString ua with
         | some c, some u =>
           if u == c then some (true, some 5) else some (false, some 1)
         | _, _ => some (false, some 1)) := by
  unfold _check_answer
  simp [h1, h2]

/-- The `multiple_choice` branch of `_check_answer`. -/
theorem check_eq_multipleBranch (task : List (String × Json)) (ua : String)
    (h1 : pyEq (jGetD task "type" (.str "manual")) (.str "manual") = false)
    (h2 : pyEq (jGetD task "type" (.str "manual")) (.str "single_choice") = false)
    (h3 : pyEq (jGetD task "type" (.str "manual")) (.str "multiple_choice") = true) :
    _check_answer task ua =
      (if pyFalsy (jGet task "correct_answer") then some (false, none)
       else
        match
          (match jGet task "correct_answer" with
           | .str s => jsonLoads s
           | v => some v) with
        | none => some (false, some 1)
        | some correct_parsed =>
          match correct_parsed with
          | .arr correct_answers =>
            match jsonLoads ua with
            | none => some (false, some 1)
            | some user_parsed =>
              match user_parsed with
              | .arr user_answers =>
                match pySorted correct_answers, pySorted user_answers with
                | some cs, some us =>
                  if pyEqList cs us then some (true, some 5)
                  else
                    match pySet correct_answers, pySet user_answers with
                    | some setc, some setu =>
                      let correct_count := pyInterCount setc setu
                      let total_correct := correct_answers.length
                      if total_correct == 0 then some (false, some 1)
                      else if 5 * correct_count ≥ 4 * total_correct then
                        some (false, some 4)
                      else if 2 * correct_count ≥ total_correct then
                        some (false, some 3)
                      else some (false, some 2)
                    | _, _ => some (false, some 1)
                | _, _ => some (false, some 1)
              | _ => some (false, some 1)
          | _ => some (false, none)) := by
  unfold _check_answer
  simp [h1, h2, h3]

/-- The `text_answer` branch of `_check_answer`. -/
theorem check_eq_textBranch (task : List (String × Json)) (ua : String)
    (h1 : pyEq (jGetD task "type" (.str "manual")) (.str "manual") = false)
    (h2 : pyEq (jGetD task "type" (.str "manual")) (.str "single_choice") = false)
    (h3 : pyEq (jGetD task "type" (.str "manual")) (.str "multiple_choice") = false)
    (h4 : pyEq (jGetD task "type" (.str "manual")) (.str "text_answer") = true) :
    _check_answer task ua =
      (match jGetD task "correct_answer" (.str "") with
       | .str s0 =>
         let correct_answer := pyLower (pyStrip s0)
         let user_answer_clean := pyLower (pyStrip ua)
         if correct_answer == "" then some (false, none)
         else if user_answer_clean == correct_answer then some (true, some 5)
         else if pyIn correct_answer user_answer_clean ||
                 pyIn user_answer_clean correct_answer then
           some (false, some 3)
         else some (false, some 1)
       | _ => none) := by
  unfold _check_answer
  simp [h1, h2, h3, h4]

/-- The unknown-type branch of `_check_answer`. -/
theorem check_eq_defaultBranch (task : List (String × Json)) (ua : String)
    (h1 : pyEq (jGetD task "type" (.str "manual")) (.str "manual") = false)
    (h2 : pyEq (jGetD task "type" (.str "manual")) (.str "single_choice") = false)
    (h3 : pyEq (jGetD task "type" (.str "manual")) (.str "multiple_choice") = false)
    (h4 : pyEq (jGetD task "type" (.str "manual")) (.str "text_answer") = false) :
    _check_answer task ua = some (false, none) := by
  unfold _check_answer
  simp [h1, h2, h3, h4]

end FastApiPython

namespace FastApiPython

/-- C7: when the task lookup yields nothing — a path missing at any
level, a non-dict node, or content loading/parsing that throws
(`content? = none`) — the submission write still succeeds and stores
`not_verified` with null grade and null teacher comment, the manual-type
outcome. -/
theorem missing_task_submission_not_verified :
    ∀ (content? : Option Json) (tk lk key : String),
      _get_task_from_course content? tk lk key = none →
      ∀ (existing : Option Submission) (payload : SubmissionCreate) (uid nid : Nat),
        ∃ r, create_or_update_submission existing
            (_get_task_from_course content? tk lk key) payload uid nid = some r ∧
          r.status = .not_verified ∧ r.grade = none ∧ r.teacher_comment = none ∧
          r.answer = payload.answer := by
  intro c tk lk key h existing payload uid nid
  rw [h]
  cases existing with
  | none => exact ⟨_, rfl, rfl, rfl, rfl, rfl⟩
  | some ex => exact ⟨_, rfl, rfl, rfl, rfl, rfl⟩

/-- Witness for C7: content whose topic exists but has no `lectures`
member. -/
theorem missing_task_submission_not_verified_witness :
    ∃ r, create_or_update_submission none
        (_get_task_from_course (some (.obj [("t", .obj [])])) "t" "l" "k")
        { course_id := 1, topic_key := "t", lecture_key := "l", task_key := "k",
          answer := "hello" } 7 9 = some r ∧
      r.status = .not_verified ∧ r.grade = none ∧ r.teacher_comment = none ∧
      r.answer = "hello" :=
  missing_task_submission_not_verified (some (.obj [("t", .obj [])])) "t" "l" "k" rfl
    none { course_id := 1, topic_key := "t", lecture_key := "l", task_key := "k",
           answer := "hello" } 7 9

/-- C8: grading an auto-checked submission (status `rated`, sentinel
comment) changes only `grade` (when the payload supplies one) and
`teacher_comment`; the status stays `rated`, the identity fields, keys
and answer are untouched; a payload comment equal to the sentinel or
absent is a no-op and an empty payload comment re-stores the sentinel. -/
theorem teacher_grade_auto_checked_frame :
    ∀ (s : Submission) (p : SubmissionUpdateGrade),
      s.status = .rated → s.teacher_comment = some autoCheckComment →
      ((grade_submission s p).status = .rated ∧
       (grade_submission s p).id = s.id ∧
       (grade_submission s p).course_id = s.course_id ∧
       (grade_submission s p).topic_key = s.topic_key ∧
       (grade_submission s p).lecture_key = s.lecture_key ∧
       (grade_submission s p).task_key = s.task_key ∧
       (grade_submission s p).user_id = s.user_id ∧
       (grade_submission s p).answer = s.answer ∧
       (p.grade = none → (grade_submission s p).grade = s.grade) ∧
       (∀ g, p.grade = some g → (grade_submission s p).grade = some g) ∧
       (p.teacher_comment = some autoCheckComment →
         (grade_submission s p).teacher_comment = some autoCheckComment) ∧
       (p.teacher_comment = some "" →
         (grade_submission s p).teacher_comment = some autoCheckComment) ∧
       (p.teacher_comment = none →
         (grade_submission s p).teacher_comment = some autoCheckComment) ∧
       (∀ c, p.teacher_comment = some c → c ≠ "" → c ≠ autoCheckComment →
         (grade_submission s p).teacher_comment = some c)) := by
  intro s p h1 h2
  have hg : grade_submission s p =
      { s with
          grade := match p.grade with | some g => some g | none => s.grade,
          teacher_comment :=
            match p.teacher_comment with
            | some c =>
              if c ≠ "" ∧ c ≠ autoCheckComment then some c
              else if c = "" then some autoCheckComment
              else s.teacher_comment
            | none => s.teacher_comment } := by
    unfold grade_submission
    rw [if_pos ⟨h1, h2⟩]
  rw [hg]
  refine ⟨h1, rfl, rfl, rfl, rfl, rfl, rfl, rfl, ?_, ?_, ?_, ?_, ?_, ?_⟩
  · intro h; simp [h]
  · intro g h; simp [h]
  · intro h; simp [h, h2]
  · intro h; simp [h]
  · intro h; simp [h, h2]
  · intro c h hne1 hne2; simp [h, hne1, hne2]

/-- Witness for C8: an empty payload comment on an auto-checked row
keeps the sentinel. -/
theorem teacher_grade_auto_checked_frame_witness :
    (grade_submission
      { id := 1, course_id := 1, topic_key := "t", lecture_key := "l", task_key := "k",
        user_id := 2, answer := "a", status := .rated, grade := some 5,
        teacher_comment := some autoCheckComment }
      { status := .rated, grade := none, teacher_comment := some "" }).teacher_comment =
      some autoCheckComment :=
  (teacher_grade_auto_checked_frame
    { id := 1, course_id := 1, topic_key := "t", lecture_key := "l", task_key := "k",
      user_id := 2, answer := "a", status := .rated, grade := some 5,
      teacher_comment := some autoCheckComment }
    { status := .rated, grade := none, teacher_comment := some "" }
    rfl rfl).2.2.2.2.2.2.2.2.2.2.2.1 rfl

/-- C9: the grader is supposed to return, for every task and raw
answer, a verdict whose score is null or in 1..5 with the correct flag
true exactly on score 5 — but on a `text_answer` task whose stored
`correct_answer` is not a string it raises `AttributeError` (first
conjunct, the concrete failing input); whenever it does return, the
verdict satisfies the property (second conjunct). -/
theorem check_answer_crash_and_verdict_range :
    (_check_answer [("type", Json.str "text_answer"), ("correct_answer", Json.int 5)] "x"
        = none) ∧
    (∀ (task : List (String × Json)) (ua : String) (b : Bool) (g : Option Int),
      _check_answer task ua = some (b, g) →
      (g = none ∨ g = some 1 ∨ g = some 2 ∨ g = some 3 ∨ g = some 4 ∨ g = some 5) ∧
      (b = true ↔ g = some 5)) := by
  constructor
  · rfl
  · intro task ua b g h
    cases h1 : pyEq (jGetD task "type" (.str "manual")) (.str "manual") with
    | true =>
      rw [check_eq_manualBranch task ua h1] at h
      simp only [Option.some.injEq, Prod.mk.injEq] at h
      obtain ⟨hb, hg⟩ := h
      subst hb; subst hg; decide
    | false =>
      cases h2 : pyEq (jGetD task "type" (.str "manual")) (.str "single_choice") with
      | true =>
        rw [check_eq_singleBranch task ua h1 h2] at h
        repeat' split at h
        all_goals
          first
            | exact Option.noConfusion h
            | (simp only [Option.some.injEq, Prod.mk.injEq] at h
               obtain ⟨hb, hg⟩ := h
               subst hb; subst hg; decide)
      | false =>
        cases h3 : pyEq (jGetD task "type" (.str "manual")) (.str "multiple_choice") with
        | true =>
          rw [check_eq_multipleBranch task ua h1 h2 h3] at h
          dsimp only at h
          repeat' split at h
          all_goals
            first
              | exact Option.noConfusion h
              | (simp only [Option.some.injEq, Prod.mk.injEq] at h
                 obtain ⟨hb, hg⟩ := h
                 subst hb; subst hg; decide)
        | false =>
          cases h4 : pyEq (jGetD task "type" (.str "manual")) (.str "text_answer") with
          | true =>
            rw [check_eq_textBranch task ua h1 h2 h3 h4] at h
            dsimp only at h
            repeat' split at h
            all_goals
              first
                | exact Option.noConfusion h
                | (simp only [Option.some.injEq, Prod.mk.injEq] at h
                   obtain ⟨hb, hg⟩ := h
                   subst hb; subst hg; decide)
          | false =>
            rw [check_eq_defaultBranch task ua h1 h2 h3 h4] at h
            simp only [Option.some.injEq, Prod.mk.injEq] at h
            obtain ⟨hb, hg⟩ := h
            subst hb; subst hg; decide

/-- Witness for C9's universally quantified part at a returning input. -/
theorem check_answer_crash_and_verdict_range_witness :
    ((some (5 : Int) = none ∨ some (5 : Int) = some 1 ∨ some (5 : Int) = some 2 ∨
      some (5 : Int) = some 3 ∨ some (5 : Int) = some 4 ∨ some (5 : Int) = some 5) ∧
     (true = true ↔ some (5 : Int) = some 5)) :=
  check_answer_crash_and_verdict_range.2
    [("type", .str "single_choice"), ("correct_answer", .int 2)] "2" true (some 5) rfl

end FastApiPython
namespace FastApiPython

/-- Counterexample for C1: on a submission that is not auto-checked,
`grade_submission` copies the payload verbatim, so a payload carrying
`status = not_verified` together with `grade = 4` stores a record whose
grade is non-null while its status is not `rated`, violating the claimed
invariant on the teacher full-overwrite path. -/
theorem grade_invariant_full_overwrite_violation :
    ((grade_submission
        { id := 1, course_id := 1, topic_key := "t", lecture_key := "l", task_key := "k",
          user_id := 2, answer := "a", status := .not_verified, grade := none,
          teacher_comment := none }
        { status := .not_verified, grade := some 4, teacher_comment := none }).grade
        = some 4) ∧
    ((grade_submission
        { id := 1, course_id := 1, topic_key := "t", lecture_key := "l", task_key := "k",
          user_id := 2, answer := "a", status := .not_verified, grade := none,
          teacher_comment := none }
        { status := .not_verified, grade := some 4, teacher_comment := none }).status
        ≠ .rated) := by
  exact ⟨rfl, by decide⟩

/-- C1 amended: `grade` is non-null only when `status = rated` holds for
every record written by submit/resubmit and by the auto-checked grading
path; the full-overwrite path copies the payload verbatim, so there it
holds exactly when the payload itself satisfies the invariant. -/
theorem grade_invariant_writers :
    (∀ (existing : Option Submission) (ti : Option Json) (payload : SubmissionCreate)
        (uid nid : Nat) (r : Submission),
      create_or_update_submission existing ti payload uid nid = some r →
      ∀ g, r.grade = some g → r.status = .rated) ∧
    (∀ (s : Submission) (p : SubmissionUpdateGrade),
      s.status = .rated → s.teacher_comment = some autoCheckComment →
      ∀ g, (grade_submission s p).grade = some g →
        (grade_submission s p).status = .rated) ∧
    (∀ (s : Submission) (p : SubmissionUpdateGrade),
      (∀ g, p.grade = some g → p.status = .rated) →
      ∀ g, (grade_submission s p).grade = some g →
        (grade_submission s p).status = .rated) := by
  refine ⟨?_, ?_, ?_⟩
  · intro existing ti payload uid nid r h
    unfold create_or_update_submission at h
    repeat' split at h
    all_goals
      first
        | exact Option.noConfusion h
        | (simp only [Option.some.injEq] at h
           subst h
           intro g hg
           split at hg <;> simp_all)
  · intro s p h1 h2 g hg
    unfold grade_submission
    rw [if_pos ⟨h1, h2⟩]
    simpa using h1
  · intro s p hp g hg
    unfold grade_submission at hg ⊢
    by_cases hauto : (s.status = status_Grade.rated ∧
        s.teacher_comment = some autoCheckComment)
    · rw [if_pos hauto] at hg ⊢
      simpa using hauto.1
    · rw [if_neg hauto] at hg ⊢
      simp at hg ⊢
      exact hp g hg

/-- Witness for C1's amended theorem on the full-overwrite path with an
invariant-respecting payload. -/
theorem grade_invariant_writers_witness :
    (grade_submission
      { id := 1, course_id := 1, topic_key := "t", lecture_key := "l", task_key := "k",
        user_id := 2, answer := "a", status := .not_verified, grade := none,
        teacher_comment := none }
      { status := .rated, grade := some 4, teacher_comment := none }).status = .rated :=
  grade_invariant_writers.2.2
    { id := 1, course_id := 1, topic_key := "t", lecture_key := "l", task_key := "k",
      user_id := 2, answer := "a", status := .not_verified, grade := none,
      teacher_comment := none }
    { status := .rated, grade := some 4, teacher_comment := none }
    (fun _ _ => rfl) 4 rfl

end FastApiPython
namespace FastApiPython

/-- `pyInsert` specialized to integers. -/
def insertInt (x : Int) : List Int → List Int
  | [] => [x]
  | y :: ys => if x < y then x :: y :: ys else y :: insertInt x ys

/-- `pySorted` specialized to integers: insertion sort. -/
def sortInt : List Int → List Int
  | [] => []
  | x :: xs => insertInt x (sortInt xs)

/-- `pyDedupAux` specialized to integers. -/
def dedupIntAux : List Int → List Int → List Int
  | _, [] => []
  | seen, x :: xs =>
    if seen.contains x then dedupIntAux seen xs
    else x :: dedupIntAux (x :: seen) xs

/-- `pyDedup` specialized to integers. -/
def dedupInt (l : List Int) : List Int :=
  dedupIntAux [] l

/-- Size of the set intersection computed by the `multiple_choice`
branch, specialized to integers. -/
def intInterCount (c u : List Int) : Nat :=
  ((dedupInt c).filter (fun x => decide (x ∈ u))).length

/-- Python `==` on integer JSON values is integer equality. -/
theorem pyEq_int (a b : Int) : pyEq (.int a) (.int b) = (a == b) := rfl

/-- `pyInsert` on integer values never raises and mirrors `insertInt`. -/
theorem pyInsert_int (x : Int) (l : List Int) :
    pyInsert (.int x) (l.map .int) = some ((insertInt x l).map .int) := by
  induction l with
  | nil => rfl
  | cons y ys ih =>
    simp only [List.map_cons, pyInsert, pyLt, insertInt]
    by_cases h : x < y
    · simp [h]
    · simp [h, ih]

/-- `sorted(...)` on integer lists never raises and mirrors `sortInt`. -/
theorem pySorted_int (l : List Int) :
    pySorted (l.map .int) = some ((sortInt l).map .int) := by
  induction l with
  | nil => rfl
  | cons x xs ih => simp [pySorted, ih, pyInsert_int, sortInt]

/-- Inserting permutes. -/
theorem insertInt_perm (x : Int) (l : List Int) : (insertInt x l).Perm (x :: l) := by
  induction l with
  | nil => simp [insertInt]
  | cons y ys ih =>
    simp only [insertInt]
    by_cases h : x < y
    · simp [h]
    · simp only [h, if_false]
      exact (ih.cons y).trans (List.Perm.swap x y ys)

/-- `sortInt` permutes its input. -/
theorem sortInt_perm (l : List Int) : (sortInt l).Perm l := by
  induction l with
  | nil => simp [sortInt]
  | cons x xs ih => exact (insertInt_perm x (sortInt xs)).trans (ih.cons x)

/-- Inserting preserves sortedness. -/
theorem insertInt_sorted (x : Int) (l : List Int) (h : l.Sorted (· ≤ ·)) :
    (insertInt x l).Sorted (· ≤ ·) := by
  induction l with
  | nil => simp [insertInt]
  | cons y ys ih =>
    rw [List.sorted_cons] at h
    simp only [insertInt]
    by_cases hxy : x < y
    · rw [if_pos hxy, List.sorted_cons]
      refine ⟨?_, List.sorted_cons.mpr h⟩
      intro b hb
      rcases List.mem_cons.mp hb with rfl | hb
      · exact le_of_lt hxy
      · exact (le_of_lt hxy).trans (h.1 b hb)
    · rw [if_neg hxy, List.sorted_cons]
      refine ⟨?_, ih h.2⟩
      intro b hb
      rcases List.mem_cons.mp ((insertInt_perm x ys).mem_iff.mp hb) with rfl | hb
      · exact le_of_not_lt hxy
      · exact h.1 b hb

/-- `sortInt` sorts. -/
theorem sortInt_sorted (l : List Int) : (sortInt l).Sorted (· ≤ ·) := by
  induction l with
  | nil => simp [sortInt]
  | cons x xs ih => exact insertInt_sorted x (sortInt xs) ih

/-- Equal sorts characterize permutation (multiset equality). -/
theorem sortInt_eq_iff (a b : List Int) : sortInt a = sortInt b ↔ a.Perm b := by
  constructor
  · intro h
    exact (sortInt_perm a).symm.trans (h ▸ sortInt_perm b)
  · intro h
    exact List.eq_of_perm_of_sorted
      ((sortInt_perm a).trans (h.trans (sortInt_perm b).symm))
      (sortInt_sorted a) (sortInt_sorted b)

/-- Python list `==` on integer lists is list equality. -/
theorem pyEqList_int (a b : List Int) :
    pyEqList (a.map .int) (b.map .int) = decide (a = b) := by
  induction a generalizing b with
  | nil => cases b <;> simp [pyEqList]
  | cons x xs ih =>
    cases b with
    | nil => simp [pyEqList]
    | cons y ys =>
      simp only [List.map_cons, pyEqList, pyEq_int, ih]
      by_cases hxy : x = y <;> by_cases hxs : xs = ys <;> simp [hxy, hxs]

end FastApiPython
namespace FastApiPython

/-- `pyDedupAux` on integer values mirrors `dedupIntAux`. -/
theorem pyDedupAux_int (l : List Int) :
    ∀ seen, pyDedupAux (seen.map .int) (l.map .int) = (dedupIntAux seen l).map .int := by
  induction l with
  | nil => intro seen; rfl
  | cons x xs ih =>
    intro seen
    have hc : ((seen.map Json.int).any (fun y => pyEq y (.int x))) = seen.contains x := by
      induction seen with
      | nil => rfl
      | cons z zs ihs =>
        simp only [List.map_cons, List.any_cons, ihs, pyEq_int, List.contains_cons]
        by_cases hxz : x = z <;> simp [hxz, BEq.comm]
    simp only [List.map_cons, pyDedupAux, dedupIntAux, hc,
      apply_ite (List.map Json.int)]
    by_cases h : seen.contains x = true
    · rw [if_pos h, if_pos h, ih]
    · rw [if_neg h, if_neg h]
      rw [show (Json.int x :: seen.map Json.int) = (x :: seen).map Json.int from rfl, ih]

/-- `set(...)` on integer lists never raises and mirrors `dedupInt`. -/
theorem pySet_int (l : List Int) :
    pySet (l.map .int) = some ((dedupInt l).map .int) := by
  unfold pySet pyDedup
  have hall : (l.map Json.int).all pyHashable = true := by
    simp [List.all_map, pyHashable, Function.comp]
  rw [if_pos hall]
  have := pyDedupAux_int l []
  simpa using this

/-- Membership in the integer dedup. -/
theorem mem_dedupIntAux (a : Int) (l : List Int) :
    ∀ seen, a ∈ dedupIntAux seen l ↔ a ∈ l ∧ a ∉ seen := by
  induction l with
  | nil => intro seen; simp [dedupIntAux]
  | cons x xs ih =>
    intro seen
    simp only [dedupIntAux]
    by_cases h : seen.contains x
    · rw [if_pos h, ih]
      have hx : x ∈ seen := by simpa using h
      constructor
      · rintro ⟨h1, h2⟩
        exact ⟨List.mem_cons_of_mem x h1, h2⟩
      · rintro ⟨h1, h2⟩
        rcases List.mem_cons.mp h1 with rfl | h1
        · exact absurd hx h2
        · exact ⟨h1, h2⟩
    · rw [if_neg h]
      constructor
      · intro hmem
        rcases List.mem_cons.mp hmem with rfl | hmem
        · exact ⟨List.mem_cons_self a xs, by simpa using h⟩
        · rw [ih] at hmem
          refine ⟨List.mem_cons_of_mem x hmem.1, ?_⟩
          intro hs
          exact hmem.2 (List.mem_cons_of_mem x hs)
      · rintro ⟨h1, h2⟩
        rcases List.mem_cons.mp h1 with rfl | h1
        · exact List.mem_cons_self a _
        · by_cases hax : a = x
          · subst hax
            exact List.mem_cons_self a _
          · refine List.mem_cons_of_mem x ?_
            rw [ih]
            refine ⟨h1, ?_⟩
            intro hs
            rcases List.mem_cons.mp hs with h' | h'
            · exact hax h'
            · exact h2 h'

/-- The integer dedup has the same members as the original list. -/
theorem mem_dedupInt (a : Int) (l : List Int) : a ∈ dedupInt l ↔ a ∈ l := by
  unfold dedupInt
  simp [mem_dedupIntAux]

/-- The integer dedup has no duplicates. -/
theorem nodup_dedupIntAux (l : List Int) : ∀ seen, (dedupIntAux seen l).Nodup := by
  induction l with
  | nil => intro seen; simp [dedupIntAux]
  | cons x xs ih =>
    intro seen
    simp only [dedupIntAux]
    by_cases h : seen.contains x
    · rw [if_pos h]
      exact ih seen
    · rw [if_neg h]
      refine List.nodup_cons.mpr ⟨?_, ih (x :: seen)⟩
      intro hmem
      exact ((mem_dedupIntAux x xs (x :: seen)).mp hmem).2 (List.mem_cons_self x seen)

/-- The integer dedup has no duplicates. -/
theorem nodup_dedupInt (l : List Int) : (dedupInt l).Nodup :=
  nodup_dedupIntAux l []

/-- The Python set intersection size on integer lists mirrors
`intInterCount`. -/
theorem pyInterCount_int (c u : List Int) :
    pyInterCount ((dedupInt c).map .int) ((dedupInt u).map .int) = intInterCount c u := by
  unfold pyInterCount intInterCount
  rw [List.filter_map]
  rw [List.length_map]
  congr 1
  apply List.filter_congr
  intro x hx
  rw [Bool.eq_iff_iff]
  simp [List.any_map, Function.comp, pyEq_int, mem_dedupInt]

/-- `intInterCount` is the cardinality of the intersection of the two
value sets. -/
theorem intInterCount_card (c u : List Int) :
    intInterCount c u = (c.toFinset ∩ u.toFinset).card := by
  unfold intInterCount
  have hnd : ((dedupInt c).filter (fun x => decide (x ∈ u))).Nodup :=
    (nodup_dedupInt c).filter _
  rw [← List.toFinset_card_of_nodup hnd]
  congr 1
  ext a
  simp [List.mem_filter, mem_dedupInt, Finset.mem_inter]

/-- The integer band check `4·n ≤ 5·k` is the rational ratio bound
`4/5 ≤ k/n`. -/
theorem band_four (k n : Nat) (hn : 0 < n) :
    (4 * n ≤ 5 * k) ↔ ((4 : ℚ)/5 ≤ (k : ℚ)/(n : ℚ)) := by
  rw [div_le_div_iff₀ (by norm_num) (by exact_mod_cast hn)]
  constructor
  · intro h
    have : ((4 * n : Nat) : ℚ) ≤ ((5 * k : Nat) : ℚ) := by exact_mod_cast h
    push_cast at this
    linarith
  · intro h
    have : ((4 * n : Nat) : ℚ) ≤ ((5 * k : Nat) : ℚ) := by push_cast; linarith
    exact_mod_cast this

/-- The integer band check `n ≤ 2·k` is the rational ratio bound
`1/2 ≤ k/n`. -/
theorem band_half (k n : Nat) (hn : 0 < n) :
    (n ≤ 2 * k) ↔ ((1 : ℚ)/2 ≤ (k : ℚ)/(n : ℚ)) := by
  rw [div_le_div_iff₀ (by norm_num) (by exact_mod_cast hn)]
  constructor
  · intro h
    have : ((n : Nat) : ℚ) ≤ ((2 * k : Nat) : ℚ) := by exact_mod_cast h
    push_cast at this
    linarith
  · intro h
    have : ((n : Nat) : ℚ) ≤ ((2 * k : Nat) : ℚ) := by push_cast; linarith
    exact_mod_cast this

end FastApiPython
namespace FastApiPython

/-- The decode-first step the `multiple_choice` branch applies to the
stored `correct_answer`: a string is JSON-decoded (`none` models the
caught `JSONDecodeError`), any other value is used as is. -/
def decodeCorrect : Json → Option Json
  | .str s => jsonLoads s
  | v => some v

/-- A stored value that decodes to a non-empty array is truthy: a
literal array is itself non-empty, and a string that decodes at all is
non-empty. -/
theorem decodeCorrect_not_falsy (v : Json) (carr : List Json) (hne : carr ≠ [])
    (hdec : decodeCorrect v = some (.arr carr)) : pyFalsy v = false := by
  cases v with
  | str s =>
    simp only [decodeCorrect] at hdec
    by_cases hs : s = ""
    · subst hs
      rw [show jsonLoads "" = none from rfl] at hdec
      exact Option.noConfusion hdec
    · have hie : s.isEmpty = false := by
        cases he : s.isEmpty
        · rfl
        · exact absurd ((String.isEmpty_iff s).mp he) hs
      exact hie
  | arr xs =>
    simp only [decodeCorrect, Option.some.injEq, Json.arr.injEq] at hdec
    subst hdec
    simp [pyFalsy, List.isEmpty_iff, hne]
  | null => simp [decodeCorrect] at hdec
  | bool b => simp [decodeCorrect] at hdec
  | int n => simp [decodeCorrect] at hdec
  | obj kvs => simp [decodeCorrect] at hdec

/-- The `multiple_choice` branch after dispatch on a non-falsy stored
`correct_answer`, expressed through the decode-first step. -/
theorem mc_branch_decoded (task : List (String × Json)) (ua : String)
    (h1 : pyEq (jGetD task "type" (.str "manual")) (.str "manual") = false)
    (h2 : pyEq (jGetD task "type" (.str "manual")) (.str "single_choice") = false)
    (h3 : pyEq (jGetD task "type" (.str "manual")) (.str "multiple_choice") = true)
    (hfalsy : pyFalsy (jGet task "correct_answer") = false) :
    _check_answer task ua =
      (match decodeCorrect (jGet task "correct_answer") with
       | none => some (false, some 1)
       | some correct_parsed =>
         match correct_parsed with
         | .arr correct_answers =>
           match jsonLoads ua with
           | none => some (false, some 1)
           | some user_parsed =>
             match user_parsed with
             | .arr user_answers =>
               match pySorted correct_answers, pySorted user_answers with
               | some cs, some us =>
                 if pyEqList cs us then some (true, some 5)
                 else
                   match pySet correct_answers, pySet user_answers with
                   | some setc, some setu =>
                     let correct_count := pyInterCount setc setu
                     let total_correct := correct_answers.length
                     if total_correct == 0 then some (false, some 1)
                     else if 5 * correct_count ≥ 4 * total_correct then
                       some (false, some 4)
                     else if 2 * correct_count ≥ total_correct then
                       some (false, some 3)
                     else some (false, some 2)
                   | _, _ => some (false, some 1)
               | _, _ => some (false, some 1)
             | _ => some (false, some 1)
         | _ => some (false, none)) := by
  rw [check_eq_multipleBranch task ua h1 h2 h3]
  simp only [hfalsy, Bool.false_eq_true, if_false]
  cases hv : jGet task "correct_answer" <;> rfl

/-- Full evaluation of the `multiple_choice` branch when the stored
`correct_answer` decodes (decode-first rule, so integer arrays stored
either literally or as a JSON string are covered) to a non-empty
integer array and the answer parses as an integer array: sorted-list
comparison, then set-intersection banding over the raw list length. -/
theorem mc_eval (task : List (String × Json)) (ua : String) (cs us : List Int)
    (hty : jGetD task "type" (.str "manual") = .str "multiple_choice")
    (hdec : decodeCorrect (jGet task "correct_answer") = some (.arr (cs.map .int)))
    (hne : cs ≠ [])
    (hua : jsonLoads ua = some (.arr (us.map .int))) :
    _check_answer task ua =
      (if sortInt cs = sortInt us then some (true, some 5)
       else if 4 * cs.length ≤ 5 * intInterCount cs us then some (false, some 4)
       else if cs.length ≤ 2 * intInterCount cs us then some (false, some 3)
       else some (false, some 2)) := by
  have h1 : pyEq (jGetD task "type" (.str "manual")) (.str "manual") = false := by
    rw [hty]; rfl
  have h2 : pyEq (jGetD task "type" (.str "manual")) (.str "single_choice") = false := by
    rw [hty]; rfl
  have h3 : pyEq (jGetD task "type" (.str "manual")) (.str "multiple_choice") = true := by
    rw [hty]; rfl
  have hmapne : cs.map Json.int ≠ [] := by
    simpa [List.map_eq_nil_iff] using hne
  have hfalsy : pyFalsy (jGet task "correct_answer") = false :=
    decodeCorrect_not_falsy _ _ hmapne hdec
  rw [mc_branch_decoded task ua h1 h2 h3 hfalsy, hdec]
  try dsimp only
  rw [hua]
  try dsimp only
  rw [pySorted_int, pySorted_int]
  try dsimp only
  rw [pyEqList_int]
  by_cases hs : sortInt cs = sortInt us
  · simp [hs]
  · simp only [hs, decide_eq_false_iff_not, decide_eq_true_eq, if_false,
      Bool.false_eq_true, decide_eq_false hs]
    rw [pySet_int, pySet_int]
    try dsimp only
    rw [pyInterCount_int]
    simp [List.length_map, List.length_eq_zero, hne]

end FastApiPython

namespace FastApiPython

/-- Counterexample for C2: the claim says order-independent SET equality
gives `(true, 5)`, but the code compares `sorted(...)` lists (multiset
equality): for `correct_answer = [1,2]` and answer `"[1,1,2]"` the sets
are equal yet the verdict is `(false, 4)`; also, a `correct_answer`
stored as the string `"[]"` decodes to the empty set yet `"[]"` grades
`(true, 5)` rather than the claimed `(false, null)` for an empty correct
set, because the emptiness test runs on the raw stored value. -/
theorem multiple_choice_set_equality_counterexample :
    (([1, 2] : List Int).toFinset = ([1, 1, 2] : List Int).toFinset) ∧
    (_check_answer [("type", .str "multiple_choice"),
        ("correct_answer", .arr [.int 1, .int 2])] "[1,1,2]" = some (false, some 4)) ∧
    (_check_answer [("type", .str "multiple_choice"),
        ("correct_answer", .str "[]")] "[]" = some (true, some 5)) :=
  ⟨by decide, rfl, rfl⟩

/-- C2 amended: `multiple_choice` grading parses both sides as JSON
arrays — the stored `correct_answer` goes through the decode-first rule
(`decodeCorrect`: a string is JSON-decoded, anything else used as is) —
and returns `(true, 5)` iff the chosen multiset equals the correct
multiset (permutation, not set equality); otherwise, for a stored value
decoding to a non-empty integer list, partial credit bands on
`r = |set(correct) ∩ set(chosen)| / len(correct)` — `r ≥ 4/5 → 4`,
`r ≥ 1/2 → 3`, else `2` — where the denominator is the raw list length;
a falsy stored `correct_answer` (absent, `null`, `[]`, `""`, `0`,
`false`) gives `(false, null)`; malformed answer JSON or a non-array
answer gives `(false, 1)`; a non-empty stored string that fails to
decode gives `(false, 1)`, and a non-falsy stored value that decodes to
a non-array gives `(false, null)`. -/
theorem multiple_choice_grading_correct :
    (∀ (task : List (String × Json)) (ua : String) (cs us : List Int),
      jGetD task "type" (.str "manual") = .str "multiple_choice" →
      decodeCorrect (jGet task "correct_answer") = some (.arr (cs.map .int)) →
      cs ≠ [] →
      jsonLoads ua = some (.arr (us.map .int)) →
      ((_check_answer task ua = some (true, some 5) ↔ cs.Perm us) ∧
       (¬ cs.Perm us →
         _check_answer task ua = some (false, some
           (if (4 : ℚ)/5 ≤ (((cs.toFinset ∩ us.toFinset).card : ℚ)/(cs.length : ℚ)) then 4
            else if (1 : ℚ)/2 ≤ (((cs.toFinset ∩ us.toFinset).card : ℚ)/(cs.length : ℚ)) then 3
            else 2))))) ∧
    (∀ (task : List (String × Json)) (ua : String),
      jGetD task "type" (.str "manual") = .str "multiple_choice" →
      pyFalsy (jGet task "correct_answer") = true →
      _check_answer task ua = some (false, none)) ∧
    (∀ (task : List (String × Json)) (ua : String) (carr : List Json),
      jGetD task "type" (.str "manual") = .str "multiple_choice" →
      decodeCorrect (jGet task "correct_answer") = some (.arr carr) →
      carr ≠ [] →
      jsonLoads ua = none →
      _check_answer task ua = some (false, some 1)) ∧
    (∀ (task : List (String × Json)) (ua : String) (carr : List Json) (v : Json),
      jGetD task "type" (.str "manual") = .str "multiple_choice" →
      decodeCorrect (jGet task "correct_answer") = some (.arr carr) →
      carr ≠ [] →
      jsonLoads ua = some v →
      (∀ xs, v ≠ .arr xs) →
      _check_answer task ua = some (false, some 1)) ∧
    (∀ (task : List (String × Json)) (ua : String) (s : String),
      jGetD task "type" (.str "manual") = .str "multiple_choice" →
      jGet task "correct_answer" = .str s →
      s ≠ "" →
      jsonLoads s = none →
      _check_answer task ua = some (false, some 1)) ∧
    (∀ (task : List (String × Json)) (ua : String) (v : Json),
      jGetD task "type" (.str "manual") = .str "multiple_choice" →
      pyFalsy (jGet task "correct_answer") = false →
      decodeCorrect (jGet task "correct_answer") = some v →
      (∀ xs, v ≠ .arr xs) →
      _check_answer task ua = some (false, none)) := by
  have hdisp : ∀ (task : List (String × Json)),
      jGetD task "type" (.str "manual") = .str "multiple_choice" →
      pyEq (jGetD task "type" (.str "manual")) (.str "manual") = false ∧
      pyEq (jGetD task "type" (.str "manual")) (.str "single_choice") = false ∧
      pyEq (jGetD task "type" (.str "manual")) (.str "multiple_choice") = true := by
    intro task hty
    rw [hty]
    exact ⟨rfl, rfl, rfl⟩
  refine ⟨?_, ?_, ?_, ?_, ?_, ?_⟩
  · intro task ua cs us hty hdec hne hua
    have he := mc_eval task ua cs us hty hdec hne hua
    have hn : 0 < cs.length := List.length_pos.mpr hne
    constructor
    · rw [he]
      by_cases hs : sortInt cs = sortInt us
      · simp [hs, (sortInt_eq_iff _ _).mp hs]
      · have hperm : ¬ cs.Perm us := fun hp => hs ((sortInt_eq_iff _ _).mpr hp)
        rw [if_neg hs]
        split <;> simp [hperm]
        split <;> simp [hperm]
    · intro hperm
      have hs : sortInt cs ≠ sortInt us := fun h => hperm ((sortInt_eq_iff _ _).mp h)
      rw [he, if_neg hs]
      have hb4 := band_four ((cs.toFinset ∩ us.toFinset).card) cs.length hn
      have hb2 := band_half ((cs.toFinset ∩ us.toFinset).card) cs.length hn
      simp only [intInterCount_card, ← hb4, ← hb2]
      split <;> try rfl
      split <;> rfl
  · intro task ua hty hfalsy
    obtain ⟨h1, h2, h3⟩ := hdisp task hty
    rw [check_eq_multipleBranch task ua h1 h2 h3, if_pos hfalsy]
  · intro task ua carr hty hdec hne hua
    obtain ⟨h1, h2, h3⟩ := hdisp task hty
    have hfalsy : pyFalsy (jGet task "correct_answer") = false :=
      decodeCorrect_not_falsy _ _ hne hdec
    rw [mc_branch_decoded task ua h1 h2 h3 hfalsy, hdec]
    try dsimp only
    rw [hua]
  · intro task ua carr v hty hdec hne hua hv
    obtain ⟨h1, h2, h3⟩ := hdisp task hty
    have hfalsy : pyFalsy (jGet task "correct_answer") = false :=
      decodeCorrect_not_falsy _ _ hne hdec
    rw [mc_branch_decoded task ua h1 h2 h3 hfalsy, hdec]
    try dsimp only
    rw [hua]
    cases v with
    | arr xs => exact absurd rfl (hv xs)
    | null => rfl
    | bool b => rfl
    | int n => rfl
    | str s => rfl
    | obj kvs => rfl
  · intro task ua s hty hca hs hsn
    obtain ⟨h1, h2, h3⟩ := hdisp task hty
    have hfalsy : pyFalsy (jGet task "correct_answer") = false := by
      rw [hca]
      have hie : s.isEmpty = false := by
        cases he : s.isEmpty
        · rfl
        · exact absurd ((String.isEmpty_iff s).mp he) hs
      exact hie
    rw [mc_branch_decoded task ua h1 h2 h3 hfalsy, hca]
    rw [show decodeCorrect (.str s) = jsonLoads s from rfl, hsn]
  · intro task ua v hty hfalsy hdec hv
    obtain ⟨h1, h2, h3⟩ := hdisp task hty
    rw [mc_branch_decoded task ua h1 h2 h3 hfalsy, hdec]
    try dsimp only
    cases v with
    | arr xs => exact absurd rfl (hv xs)
    | null => rfl
    | bool b => rfl
    | int n => rfl
    | str s => rfl
    | obj kvs => rfl

/-- Witness for C2's amended theorem, exercising the decode-first path:
the spec's example correct answer `[1,2,3]` stored as the JSON string
`"[1,2,3]"`, answer `"[3,2,1]"`, grades `(true, 5)`. -/
theorem multiple_choice_grading_correct_witness :
    _check_answer [("type", .str "multiple_choice"),
        ("correct_answer", .str "[1,2,3]")] "[3,2,1]" =
      some (true, some 5) :=
  ((multiple_choice_grading_correct.1
    [("type", .str "multiple_choice"), ("correct_answer", .str "[1,2,3]")]
    "[3,2,1]" [1, 2, 3] [3, 2, 1] rfl rfl (by decide) rfl).1).mpr (by decide)

end FastApiPython
namespace FastApiPython

/-- Membership through the optional lecture-key filter. -/
theorem mem_lectureFilter (lk : Option String) (l : List Submission) (s : Submission) :
    s ∈ lectureFilter lk l ↔ s ∈ l ∧ (∀ k, lk = some k → s.lecture_key = k) := by
  cases lk with
  | none => simp [lectureFilter]
  | some k =>
    simp only [lectureFilter, List.mem_filter, decide_eq_true_eq]
    constructor
    · rintro ⟨h1, h2⟩
      exact ⟨h1, fun k' hk => by injection hk with hk; rw [← hk]; exact h2⟩
    · rintro ⟨h1, h2⟩
      exact ⟨h1, h2 k rfl⟩

/-- Single-course review of a public course: visible submissions are
exactly those of the course whose author has an enrollment row for that
same course. -/
theorem review_single_public_mem (db : DB) (uid cid : Nat) (lk : Option String)
    (course : Course) (res : List Submission)
    (hfind : db.courses.find? (fun c => decide (c.id = cid)) = some course)
    (hcr : course.creator_id = some uid)
    (hst : course.status = .public)
    (h : list_for_review db uid (some cid) lk = .ok res) (s : Submission) :
    s ∈ res ↔ s ∈ db.submissions ∧ s.course_id = cid ∧
      (∃ uc ∈ db.ucs, uc.user_id = s.user_id ∧ uc.course_id = cid) ∧
      (∀ k, lk = some k → s.lecture_key = k) := by
  unfold list_for_review at h
  dsimp only at h
  rw [hfind] at h
  dsimp only at h
  rw [if_neg (by rw [hcr]; exact fun hne => hne rfl)] at h
  rw [if_pos hst] at h
  set enrolled := (db.ucs.filter (fun uc => decide (uc.course_id = cid))).map
    (fun uc => uc.user_id) with henr
  have hmem : ∀ u, u ∈ enrolled ↔ ∃ uc ∈ db.ucs, uc.user_id = u ∧ uc.course_id = cid := by
    intro u
    rw [henr]
    simp only [List.mem_map, List.mem_filter, decide_eq_true_eq]
    constructor
    · rintro ⟨uc, ⟨h1, h2⟩, rfl⟩
      exact ⟨uc, h1, rfl, h2⟩
    · rintro ⟨uc, h1, rfl, h2⟩
      exact ⟨uc, ⟨h1, h2⟩, rfl⟩
  by_cases hemp : enrolled.isEmpty
  · rw [if_pos hemp] at h
    injection h with h
    subst h
    simp only [List.not_mem_nil, false_iff]
    rintro ⟨-, -, ⟨uc, hmemuc, hu, hc⟩, -⟩
    rw [List.isEmpty_iff] at hemp
    have := (hmem uc.user_id).mpr ⟨uc, hmemuc, rfl, hc⟩
    rw [hemp] at this
    exact List.not_mem_nil _ this
  · rw [if_neg hemp] at h
    injection h with h
    subst h
    rw [mem_lectureFilter]
    simp only [List.mem_filter, decide_eq_true_eq]
    constructor
    · rintro ⟨⟨⟨h1, h2⟩, h3⟩, h4⟩
      exact ⟨h1, h2, (hmem s.user_id).mp h3, h4⟩
    · rintro ⟨h1, h2, h3, h4⟩
      exact ⟨⟨⟨h1, h2⟩, (hmem s.user_id).mpr h3⟩, h4⟩

/-- Single-course review of a private or draft course: all submissions
of that course are visible. -/
theorem review_single_other_mem (db : DB) (uid cid : Nat) (lk : Option String)
    (course : Course) (res : List Submission)
    (hfind : db.courses.find? (fun c => decide (c.id = cid)) = some course)
    (hcr : course.creator_id = some uid)
    (hst : course.status ≠ .public)
    (h : list_for_review db uid (some cid) lk = .ok res) (s : Submission) :
    s ∈ res ↔ s ∈ db.submissions ∧ s.course_id = cid ∧
      (∀ k, lk = some k → s.lecture_key = k) := by
  unfold list_for_review at h
  dsimp only at h
  rw [hfind] at h
  dsimp only at h
  rw [if_neg (by rw [hcr]; exact fun hne => hne rfl)] at h
  rw [if_neg hst] at h
  injection h with h
  subst h
  rw [mem_lectureFilter]
  simp [List.mem_filter, and_assoc]

end FastApiPython
namespace FastApiPython

/-- `any` over a `filterMap`. -/
theorem any_filterMap {α β : Type} (l : List α) (f : α → Option β) (p : β → Bool) :
    (l.filterMap f).any p = l.any (fun a => ((f a).map p).getD false) := by
  induction l with
  | nil => rfl
  | cons x xs ih => cases hfx : f x <;> simp [List.filterMap_cons, hfx, ih]

/-- With pairwise-distinct ids, `find?` by a member's id returns that
member. -/
theorem find_course_of_nodup (T : List Course)
    (hnd : (T.map (fun c => c.id)).Nodup) (c : Course) (hc : c ∈ T) :
    T.find? (fun d => decide (d.id = c.id)) = some c := by
  induction T with
  | nil => cases hc
  | cons d ds ih =>
    rw [List.map_cons, List.nodup_cons] at hnd
    rcases List.mem_cons.mp hc with rfl | hc
    · rw [List.find?_cons_of_pos _ (by simp)]
    · by_cases hid : d.id = c.id
      · exact absurd (hid ▸ List.mem_map_of_mem (fun c => c.id) hc) hnd.1
      · rw [List.find?_cons_of_neg _ (by simp [hid])]
        exact ih hnd.2 hc

/-- All-courses review listing: a submission is visible iff it belongs
to a course of the caller and, when that course is public, its author is
enrolled in at least one public course of the caller — the union of
enrollments across all of the caller's public courses, not necessarily
the course submitted to. -/
theorem review_all_mem (db : DB) (uid : Nat) (lk : Option String)
    (res : List Submission)
    (hnd : (db.courses.map (fun c => c.id)).Nodup)
    (h : list_for_review db uid none lk = .ok res) (s : Submission) :
    s ∈ res ↔ s ∈ db.submissions ∧ (∀ k, lk = some k → s.lecture_key = k) ∧
      ∃ c ∈ db.courses, c.creator_id = some uid ∧ s.course_id = c.id ∧
        (c.status = .public → ∃ uc ∈ db.ucs, uc.user_id = s.user_id ∧
          ∃ c2 ∈ db.courses, c2.creator_id = some uid ∧ c2.status = .public ∧
            uc.course_id = c2.id) := by
  unfold list_for_review at h
  dsimp only at h
  set T := db.courses.filter (fun c => decide (c.creator_id = some uid)) with hT
  have hndT : (T.map (fun c => c.id)).Nodup := by
    rw [hT]
    exact hnd.sublist (List.Sublist.map _ (List.filter_sublist _))
  have hmemT : ∀ c, c ∈ T ↔ c ∈ db.courses ∧ c.creator_id = some uid := by
    intro c
    rw [hT]
    simp [List.mem_filter]
  set P := ((T.filter (fun c => decide (c.status = status_Course.public))).map
    (fun c => c.id)).dedup with hP
  have hmemP : ∀ i, i ∈ P ↔ ∃ c2 ∈ T, c2.status = .public ∧ c2.id = i := by
    intro i
    rw [hP]
    simp only [List.mem_dedup, List.mem_map, List.mem_filter, decide_eq_true_eq]
    constructor
    · rintro ⟨c2, ⟨h1, h2⟩, rfl⟩
      exact ⟨c2, h1, h2, rfl⟩
    · rintro ⟨c2, h1, h2, rfl⟩
      exact ⟨c2, ⟨h1, h2⟩, rfl⟩
  set E := (db.ucs.filter (fun uc => decide (uc.course_id ∈ P))).map
    (fun uc => uc.user_id) with hE
  have hmemE : ∀ u, u ∈ E ↔ ∃ uc ∈ db.ucs, uc.user_id = u ∧
      ∃ c2 ∈ db.courses, c2.creator_id = some uid ∧ c2.status = .public ∧
        uc.course_id = c2.id := by
    intro u
    rw [hE]
    simp only [List.mem_map, List.mem_filter, decide_eq_true_eq]
    constructor
    · rintro ⟨uc, ⟨h1, h2⟩, rfl⟩
      rcases (hmemP uc.course_id).mp h2 with ⟨c2, hc2, hpub, hid⟩
      rcases (hmemT c2).mp hc2 with ⟨hcm, hcr⟩
      exact ⟨uc, h1, rfl, c2, hcm, hcr, hpub, hid.symm⟩
    · rintro ⟨uc, h1, rfl, c2, hcm, hcr, hpub, hid⟩
      refine ⟨uc, ⟨h1, ?_⟩, rfl⟩
      exact (hmemP uc.course_id).mpr ⟨c2, (hmemT c2).mpr ⟨hcm, hcr⟩, hpub, hid.symm⟩
  set ids := (T.map (fun c => c.id)).dedup with hids
  have hmemIds : ∀ i, i ∈ ids ↔ ∃ c ∈ T, c.id = i := by
    intro i
    rw [hids]
    simp [List.mem_dedup, List.mem_map]
  by_cases hempty : ids.isEmpty = true
  · rw [if_pos hempty] at h
    injection h with h
    subst h
    simp only [List.not_mem_nil, false_iff]
    rintro ⟨-, -, c, hcm, hcr, -, -⟩
    rw [List.isEmpty_iff] at hempty
    have : c.id ∈ ids := (hmemIds c.id).mpr ⟨c, (hmemT c).mpr ⟨hcm, hcr⟩, rfl⟩
    rw [hempty] at this
    exact List.not_mem_nil _ this
  · rw [if_neg hempty] at h
    by_cases hpub : (!P.isEmpty) = true
    · rw [if_pos hpub] at h
      set f : Nat → Option (Submission → Bool) := fun cid =>
        match T.find? (fun c => decide (c.id = cid)) with
        | some course_obj =>
          if course_obj.status = status_Course.public then
            if !E.isEmpty then
              some (fun s => decide (s.course_id = cid) && decide (s.user_id ∈ E))
            else none
          else some (fun s => decide (s.course_id = cid))
        | none => some (fun s => decide (s.course_id = cid)) with hf
      have hany : ∀ t : Submission,
          ((ids.filterMap f).any (fun cond => cond t) = true) ↔
            ∃ c ∈ T, t.course_id = c.id ∧
              (c.status = .public → t.user_id ∈ E) := by
        intro t
        rw [any_filterMap, List.any_eq_true]
        constructor
        · rintro ⟨cid, hcid, hval⟩
          rcases (hmemIds cid).mp hcid with ⟨c, hcT, rfl⟩
          rw [hf] at hval
          dsimp only at hval
          rw [find_course_of_nodup T hndT c hcT] at hval
          dsimp only at hval
          by_cases hcpub : c.status = status_Course.public
          · rw [if_pos hcpub] at hval
            by_cases hE0 : (!E.isEmpty) = true
            · rw [if_pos hE0] at hval
              simp at hval
              exact ⟨c, hcT, hval.1, fun _ => hval.2⟩
            · rw [if_neg hE0] at hval
              simp at hval
          · rw [if_neg hcpub] at hval
            simp at hval
            exact ⟨c, hcT, hval, fun hc => absurd hc hcpub⟩
        · rintro ⟨c, hcT, hcid, himp⟩
          refine ⟨c.id, (hmemIds c.id).mpr ⟨c, hcT, rfl⟩, ?_⟩
          rw [hf]
          dsimp only
          rw [find_course_of_nodup T hndT c hcT]
          dsimp only
          by_cases hcpub : c.status = status_Course.public
          · have huser := himp hcpub
            have hE0 : (!E.isEmpty) = true := by
              rcases E with _ | ⟨e, es⟩
              · exact absurd huser (List.not_mem_nil _)
              · rfl
            rw [if_pos hcpub, if_pos hE0]
            simp [hcid, huser]
          · rw [if_neg hcpub]
            simp [hcid]
      by_cases hcond : (ids.filterMap f).isEmpty = true
      · rw [if_pos hcond] at h
        injection h with h
        subst h
        simp only [List.not_mem_nil, false_iff]
        rintro ⟨hs1, hs2, c, hcm, hcr, hsc, himp⟩
        rw [List.isEmpty_iff] at hcond
        have hcT : c ∈ T := (hmemT c).mpr ⟨hcm, hcr⟩
        obtain ⟨y, hy⟩ : ∃ y, f c.id = some y := by
          rw [hf]
          dsimp only
          rw [find_course_of_nodup T hndT c hcT]
          dsimp only
          by_cases hcpub : c.status = status_Course.public
          · have huser : s.user_id ∈ E := by
              rcases himp hcpub with ⟨uc, hucm, hucu, c2, hc2m, hc2r, hc2p, hucc⟩
              exact (hmemE s.user_id).mpr ⟨uc, hucm, hucu, c2, hc2m, hc2r, hc2p, hucc⟩
            have hE0 : (!E.isEmpty) = true := by
              rcases hEl : E with _ | ⟨e, es⟩
              · rw [hEl] at huser
                exact absurd huser (List.not_mem_nil _)
              · rfl
            rw [if_pos hcpub, if_pos hE0]
            exact ⟨_, rfl⟩
          · rw [if_neg hcpub]
            exact ⟨_, rfl⟩
        have hymem : y ∈ ids.filterMap f :=
          List.mem_filterMap.mpr ⟨c.id, (hmemIds c.id).mpr ⟨c, hcT, rfl⟩, hy⟩
        rw [hcond] at hymem
        exact List.not_mem_nil _ hymem
      · rw [if_neg hcond] at h
        injection h with h
        subst h
        rw [mem_lectureFilter]
        simp only [List.mem_filter]
        constructor
        · rintro ⟨⟨hs1, hs2⟩, hs3⟩
          rcases (hany s).mp hs2 with ⟨c, hcT, hcid, himp⟩
          rcases (hmemT c).mp hcT with ⟨hcm, hcr⟩
          refine ⟨hs1, hs3, c, hcm, hcr, hcid, fun hp => ?_⟩
          exact (hmemE s.user_id).mp (himp hp)
        · rintro ⟨hs1, hs3, c, hcm, hcr, hcid, himp⟩
          refine ⟨⟨hs1, (hany s).mpr ⟨c, (hmemT c).mpr ⟨hcm, hcr⟩, hcid, fun hp => ?_⟩⟩, hs3⟩
          exact (hmemE s.user_id).mpr (himp hp)
    · rw [if_neg hpub] at h
      injection h with h
      subst h
      have hnopub : ∀ c ∈ T, c.status ≠ status_Course.public := by
        intro c hcT hcpub
        have : c.id ∈ P := (hmemP c.id).mpr ⟨c, hcT, hcpub, rfl⟩
        have hP0 : P.isEmpty = true := by
          rcases hPl : P with _ | _
          · rfl
          · rw [hPl] at hpub
            simp at hpub
        rw [List.isEmpty_iff] at hP0
        rw [hP0] at this
        exact List.not_mem_nil _ this
      rw [mem_lectureFilter]
      simp only [List.mem_filter, decide_eq_true_eq]
      constructor
      · rintro ⟨⟨hs1, hs2⟩, hs3⟩
        rcases (hmemIds s.course_id).mp hs2 with ⟨c, hcT, hcid⟩
        rcases (hmemT c).mp hcT with ⟨hcm, hcr⟩
        exact ⟨hs1, hs3, c, hcm, hcr, hcid.symm, fun hp => absurd hp (hnopub c hcT)⟩
      · rintro ⟨hs1, hs3, c, hcm, hcr, hcid, -⟩
        refine ⟨⟨hs1, (hmemIds s.course_id).mpr ⟨c, (hmemT c).mpr ⟨hcm, hcr⟩, hcid.symm⟩⟩, hs3⟩

end FastApiPython

namespace FastApiPython

/-- The cross-course scenario for C3: teacher 1 owns public courses 1
and 2, user 10 is enrolled only in course 1, the submission targets
course 2. -/
def crossSub : Submission :=
  { id := 100, course_id := 2, topic_key := "t", lecture_key := "l",
    task_key := "k", user_id := 10, answer := "a", status := .not_verified,
    grade := none, teacher_comment := none }

/-- Database of the cross-course scenario. -/
def crossDB : DB :=
  { courses := [{ id := 1, status := .public, creator_id := some 1 },
                { id := 2, status := .public, creator_id := some 1 }],
    ucs := [{ user_id := 10, course_id := 1 }],
    submissions := [crossSub] }

/-- Counterexample for C3: reviewing course 2 alone hides the
submission of the non-enrolled user (as the claim states), but the
all-courses listing shows it, because the source filters each public
course against the union of enrollments over all of the teacher's
public courses rather than per course. -/
theorem review_visibility_cross_course_counterexample :
    (list_for_review crossDB 1 (some 2) none = .ok []) ∧
    (list_for_review crossDB 1 none none = .ok [crossSub]) :=
  ⟨rfl, rfl⟩

/-- C3 amended: reviewing a single course behaves as claimed — for a
public course exactly the submissions of users enrolled in that course
are visible, for a private/draft course all of the course's submissions
— but the listing across all of the teacher's courses admits, for each
public course, every submission whose author is enrolled in ANY public
course of the same teacher (the union of those enrollments), so a user
enrolled only in a different public course of the teacher is not
excluded there; when nobody is enrolled in any of the teacher's public
courses, its public courses contribute nothing. -/
theorem review_visibility_characterization :
    (∀ (db : DB) (uid cid : Nat) (lk : Option String) (course : Course)
        (res : List Submission),
      db.courses.find? (fun c => decide (c.id = cid)) = some course →
      course.creator_id = some uid →
      course.status = .public →
      list_for_review db uid (some cid) lk = .ok res →
      ∀ s, s ∈ res ↔ s ∈ db.submissions ∧ s.course_id = cid ∧
        (∃ uc ∈ db.ucs, uc.user_id = s.user_id ∧ uc.course_id = cid) ∧
        (∀ k, lk = some k → s.lecture_key = k)) ∧
    (∀ (db : DB) (uid cid : Nat) (lk : Option String) (course : Course)
        (res : List Submission),
      db.courses.find? (fun c => decide (c.id = cid)) = some course →
      course.creator_id = some uid →
      course.status ≠ .public →
      list_for_review db uid (some cid) lk = .ok res →
      ∀ s, s ∈ res ↔ s ∈ db.submissions ∧ s.course_id = cid ∧
        (∀ k, lk = some k → s.lecture_key = k)) ∧
    (∀ (db : DB) (uid : Nat) (lk : Option String) (res : List Submission),
      (db.courses.map (fun c => c.id)).Nodup →
      list_for_review db uid none lk = .ok res →
      ∀ s, s ∈ res ↔ s ∈ db.submissions ∧ (∀ k, lk = some k → s.lecture_key = k) ∧
        ∃ c ∈ db.courses, c.creator_id = some uid ∧ s.course_id = c.id ∧
          (c.status = .public → ∃ uc ∈ db.ucs, uc.user_id = s.user_id ∧
            ∃ c2 ∈ db.courses, c2.creator_id = some uid ∧ c2.status = .public ∧
              uc.course_id = c2.id)) :=
  ⟨fun db uid cid lk course res hfind hcr hst h s =>
      review_single_public_mem db uid cid lk course res hfind hcr hst h s,
   fun db uid cid lk course res hfind hcr hst h s =>
      review_single_other_mem db uid cid lk course res hfind hcr hst h s,
   fun db uid lk res hnd h s => review_all_mem db uid lk res hnd h s⟩

/-- Witness for C3's amended theorem: in the cross-course database the
all-courses listing contains the cross-course submission, derived from
the characterization. -/
theorem review_visibility_characterization_witness :
    crossSub ∈ [crossSub] :=
  (review_visibility_characterization.2.2 crossDB 1 none [crossSub]
    (by decide) rfl crossSub).mpr
    ⟨List.mem_cons_self _ _, fun k hk => Option.noConfusion hk,
     { id := 2, status := .public, creator_id := some 1 },
     by decide, rfl, rfl,
     fun _ => ⟨{ user_id := 10, course_id := 1 }, List.mem_cons_self _ _, rfl,
       { id := 1, status := .public, creator_id := some 1 },
       List.mem_cons_self _ _, rfl, rfl, rfl⟩⟩

end FastApiPython
